import Mathlib

/-!
Shallow embedding of the `tauri_agent` PC-automation agent
(`src/src-tauri/src`) and verification of its specification claims.

Modelling conventions:
* Rust `String`/`&str` text that is processed character-wise is modelled as
  `List Char`; plain record fields keep Lean `String`.
* `serde_json::Value` is modelled by the inductive `Json` below; JSON numbers
  are modelled as `Int` (no claim depends on fractional values).
* Rust `char::to_lowercase` is modelled by `Char.toLower` (ASCII case map);
  no claim depends on non-ASCII case folding.
* Fallible Rust code (`Result<T, String>`) is modelled as `Except String T`.
-/

namespace TauriAgent

/-- Escaped brace characters ('{' and '}'), used when building JSON text. -/
def lbrace : Char := '\x7b'

def rbrace : Char := '\x7d'

/-- Character-wise lowercase map, modelling `str::to_lowercase`. -/
def lowerList (cs : List Char) : List Char := cs.map Char.toLower

/-- Auxiliary worker for `splitWs`, accumulating the current token reversed. -/
def splitWsAux : List Char → List Char → List (List Char)
  | [], cur => if cur.isEmpty then [] else [cur.reverse]
  | c :: rest, cur =>
    if c.isWhitespace then
      if cur.isEmpty then splitWsAux rest []
      else cur.reverse :: splitWsAux rest []
    else splitWsAux rest (c :: cur)

/-- Model of `str::split_whitespace`: split on whitespace, no empty tokens. -/
def splitWs (cs : List Char) : List (List Char) := splitWsAux cs []

/-- Model of `str::contains(&str)`: `ns` occurs as a contiguous substring. -/
def containsSub (hs ns : List Char) : Bool :=
  match hs with
  | [] => ns.isEmpty
  | _ :: rest => ns.isPrefixOf hs || containsSub rest ns

/-- Model of `serde_json::Value`. Numbers are modelled as `Int`. -/
inductive Json where
  | null : Json
  | bool : Bool → Json
  | num : Int → Json
  | str : String → Json
  | arr : List Json → Json
  | obj : List (String × Json) → Json
deriving Repr

namespace Json

/-- Model of `Value::get(key)` / map lookup on a JSON object. -/
def get (j : Json) (key : String) : Option Json :=
  match j with
  | .obj fields => (fields.find? (fun kv => kv.1 = key)).map (·.2)
  | _ => none

/-- Model of `Value::as_str`. -/
def asStr : Json → Option String
  | .str s => some s
  | _ => none

/-- Model of `Value::as_array`. -/
def asArr : Json → Option (List Json)
  | .arr xs => some xs
  | _ => none

end Json

/-- The `name`-field contribution of one object node in `collect_names`
(`main.rs:552-558`): `' '` followed by the lowercased name when the first
`name` field holds a non-empty string. -/
def nameHit (fields : List (String × Json)) : List Char :=
  match (Json.obj fields).get "name" |>.bind Json.asStr with
  | some name => if name.isEmpty then [] else ' ' :: lowerList name.toList
  | none => []

mutual
/-- Model of the nested `collect_names` in `check_goal_in_a11y`
(`main.rs:551-569`): depth-first walk appending `' '` and the lowercased
`name` for every object node with a non-empty string `name` field, recursing
into the `children` array of objects and into array elements. Returns the
appended suffix (the Rust code pushes onto a shared `String`). -/
def collectNames : Json → List Char
  | .obj fields => nameHit fields ++ collectNamesFields fields
  | .arr items => collectNamesList items
  | _ => []

/-- The `children`-field recursion of `collect_names`: the first `children`
key whose value is an array is walked; a first `children` key holding a
non-array contributes nothing (mirrors `get("children").and_then(as_array)`). -/
def collectNamesFields : List (String × Json) → List Char
  | [] => []
  | (k, v) :: rest =>
    if k = "children" then childNames v else collectNamesFields rest

/-- The walk of `collect_names` into a `children` value: arrays are walked,
anything else contributes nothing. -/
def childNames : Json → List Char
  | .arr items => collectNamesList items
  | _ => []

/-- The fold of `collect_names` over a list of JSON values. -/
def collectNamesList : List Json → List Char
  | [] => []
  | j :: rest => collectNames j ++ collectNamesList rest
end

/-- Model of `ExecutionState` (`main.rs:18-26`). -/
structure ExecutionState where
  screenshotBase64 : String
  accessibilityTree : Json
  activeWindow : String
  url : Option String
  success : Bool
  error : Option String
deriving Repr

/-- The stop-word list of `check_goal_in_a11y` (`main.rs:526-528`). -/
def stopWords : List (List Char) :=
  ["the", "a", "an", "in", "on", "for", "to", "and", "or", "of", "with",
   "open", "search", "find", "go", "click", "type", "press", "enter",
   "chrome", "browser", "google"].map String.toList

/-- The UTF-8 byte width of one character (1 to 4 bytes by code-point
range), the per-character contribution to Rust's `str::len`. -/
def utf8CharLen (c : Char) : Nat :=
  if c.toNat < 0x80 then 1
  else if c.toNat < 0x800 then 2
  else if c.toNat < 0x10000 then 3
  else 4

/-- Model of `str::len`: the UTF-8 byte length of the text (Rust string
lengths count bytes, not characters). -/
def byteLen (cs : List Char) : Nat := (cs.map utf8CharLen).sum

/-- The filtered keyword list of `check_goal_in_a11y` (`main.rs:530-534`).
The Rust filter is `w.len() > 2`, and `str::len` counts UTF-8 bytes, so a
token of one or two multi-byte characters (at least 3 bytes) is kept. -/
def goalKeywords (goal : String) : List (List Char) :=
  let goalLower := lowerList goal.toList
  (splitWs goalLower).filter (fun w => byteLen w > 2 && !(stopWords.contains w))

/-- The searchable text built by `check_goal_in_a11y` (`main.rs:541-570`):
lowercased window title, then `' '` and the lowercased URL when present, then
the `collect_names` suffix. -/
def searchableText (st : ExecutionState) : List Char :=
  lowerList st.activeWindow.toList ++
  (match st.url with
   | some u => ' ' :: lowerList u.toList
   | none => []) ++
  collectNames st.accessibilityTree

/-- Model of `check_goal_in_a11y` (`main.rs:524-581`). -/
def checkGoalInA11y (goal : String) (st : ExecutionState) : Bool :=
  let keywords := goalKeywords goal
  if keywords.isEmpty then false
  else keywords.any (fun kw => containsSub (searchableText st) kw)

/-! Spec-side formulation of the goal-keyword check, written from the
specification's words for comparison with `checkGoalInA11y`. -/

/-- The raw (un-lowercased) non-empty `name` value of one object node, as a
singleton list, for the spec-side depth-first name gathering. -/
def specNameField (fields : List (String × Json)) : List (List Char) :=
  match (Json.obj fields).get "name" |>.bind Json.asStr with
  | some name => if name.isEmpty then [] else [name.toList]
  | none => []

mutual
/-- Spec-side gathering: every non-empty `name` field reached by a
depth-first walk of the accessibility tree, in walk order. -/
def specNames : Json → List (List Char)
  | .obj fields => specNameField fields ++ specNamesFields fields
  | .arr items => specNamesList items
  | _ => []

/-- The walk of `specNames` into the first `children` array of an object. -/
def specNamesFields : List (String × Json) → List (List Char)
  | [] => []
  | (k, v) :: rest =>
    if k = "children" then specChildNames v else specNamesFields rest

/-- The walk of `specNames` into a `children` value. -/
def specChildNames : Json → List (List Char)
  | .arr items => specNamesList items
  | _ => []

/-- The fold of `specNames` over a list of JSON values. -/
def specNamesList : List Json → List (List Char)
  | [] => []
  | j :: rest => specNames j ++ specNamesList rest
end

/-- Spec-side keyword extraction, following the claim's words: lowercase the
goal, split it on whitespace, drop the stop-words, then drop every token of
length at most 2 — with length read as the claim reads it, a character
count. -/
def specKeywords (goal : String) : List (List Char) :=
  (((splitWs (lowerList goal.toList)).filter
      (fun w => !(stopWords.contains w))).filter
    (fun w => !(w.length ≤ 2)))

/-- Spec-side keyword extraction amended to the code's length test: drop the
stop-words, then drop every token whose UTF-8 byte length is at most 2. -/
def specKeywordsBytes (goal : String) : List (List Char) :=
  (((splitWs (lowerList goal.toList)).filter
      (fun w => !(stopWords.contains w))).filter
    (fun w => !(byteLen w ≤ 2)))

/-- The pieces whose concatenation the claim describes: the active window
title, the URL when present, and every non-empty name field in depth-first
walk order. -/
def specPieces (st : ExecutionState) : List (List Char) :=
  st.activeWindow.toList ::
    ((match st.url with
      | some u => [u.toList]
      | none => []) ++ specNames st.accessibilityTree)

/-- Space-separated concatenation of a list of character lists (a single
`' '` between consecutive pieces). -/
def joinSpaced : List (List Char) → List Char
  | [] => []
  | [x] => x
  | x :: rest => x ++ ' ' :: joinSpaced rest

/-- The goal-keyword check exactly as the claim words it, reading
"concatenation" as direct concatenation of the pieces. -/
def specCheckGoalConcat (goal : String) (st : ExecutionState) : Bool :=
  let kws := specKeywords goal
  if kws.isEmpty then false
  else kws.any (fun kw => containsSub (lowerList (specPieces st).flatten) kw)

/-- The goal-keyword check as the claim words it, amended on its two
divergences from the code: the concatenation is space-separated, and the
length filter counts UTF-8 bytes (Rust `str::len`), not characters. -/
def specCheckGoalSpaced (goal : String) (st : ExecutionState) : Bool :=
  let kws := specKeywordsBytes goal
  if kws.isEmpty then false
  else kws.any (fun kw => containsSub (lowerList (joinSpaced (specPieces st))) kw)

theorem specKeywordsBytes_eq_goalKeywords (goal : String) :
    specKeywordsBytes goal = goalKeywords goal := by
  unfold specKeywordsBytes goalKeywords
  rw [List.filter_filter]
  apply List.filter_congr
  intro w _
  have h : decide (2 < byteLen w) = !decide (byteLen w ≤ 2) := by
    by_cases h2 : 2 < byteLen w
    · simp [h2, Nat.not_le.mpr h2]
    · simp [h2, Nat.not_lt.mp h2]
  simp [h, Bool.and_comm]

theorem lowerList_append (a b : List Char) :
    lowerList (a ++ b) = lowerList a ++ lowerList b := by
  simp [lowerList]

mutual
theorem collectNames_eq_specNames (j : Json) :
    collectNames j = ((specNames j).map (fun n => ' ' :: lowerList n)).flatten := by
  cases j with
  | obj fields =>
    rw [collectNames, specNames, List.map_append, List.flatten_append,
      collectNamesFields_eq_specNamesFields fields]
    congr 1
    unfold nameHit specNameField
    cases hn : ((Json.obj fields).get "name").bind Json.asStr with
    | none => simp
    | some name =>
      by_cases he : name.isEmpty <;> simp [he]
  | arr items => rw [collectNames, specNames, collectNamesList_eq_specNamesList items]
  | null => rfl
  | bool b => rfl
  | num n => rfl
  | str s => rfl

theorem collectNamesFields_eq_specNamesFields (fs : List (String × Json)) :
    collectNamesFields fs =
      ((specNamesFields fs).map (fun n => ' ' :: lowerList n)).flatten := by
  cases fs with
  | nil => rfl
  | cons kv rest =>
    cases kv with
    | mk k v =>
      rw [collectNamesFields, specNamesFields]
      by_cases hk : k = "children"
      · rw [if_pos hk, if_pos hk]
        exact childNames_eq_specChildNames v
      · rw [if_neg hk, if_neg hk]
        exact collectNamesFields_eq_specNamesFields rest

theorem childNames_eq_specChildNames (v : Json) :
    childNames v =
      ((specChildNames v).map (fun n => ' ' :: lowerList n)).flatten := by
  cases v with
  | arr items => exact collectNamesList_eq_specNamesList items
  | null => rfl
  | bool b => rfl
  | num n => rfl
  | str s => rfl
  | obj o => rfl

theorem collectNamesList_eq_specNamesList (js : List Json) :
    collectNamesList js =
      ((specNamesList js).map (fun n => ' ' :: lowerList n)).flatten := by
  cases js with
  | nil => rfl
  | cons j rest =>
    rw [collectNamesList, specNamesList, List.map_append, List.flatten_append,
      collectNames_eq_specNames j, collectNamesList_eq_specNamesList rest]
end

theorem joinSpaced_cons_cons (x y : List Char) (ys : List (List Char)) :
    joinSpaced (x :: y :: ys) = x ++ ' ' :: joinSpaced (y :: ys) := rfl

theorem lowerList_cons (c : Char) (cs : List Char) :
    lowerList (c :: cs) = c.toLower :: lowerList cs := rfl

theorem lowerList_joinSpaced (x : List Char) (xs : List (List Char)) :
    lowerList (joinSpaced (x :: xs)) =
      lowerList x ++ (xs.map (fun p => ' ' :: lowerList p)).flatten := by
  induction xs generalizing x with
  | nil => simp [joinSpaced]
  | cons y ys ih =>
    rw [joinSpaced_cons_cons, lowerList_append, lowerList_cons, ih y]
    have hsp : (' ' : Char).toLower = ' ' := rfl
    simp [hsp]

theorem searchableText_eq_spaced (st : ExecutionState) :
    searchableText st = lowerList (joinSpaced (specPieces st)) := by
  unfold searchableText specPieces
  rw [lowerList_joinSpaced, List.map_append, List.flatten_append,
    collectNames_eq_specNames]
  cases st.url with
  | none => simp
  | some u => simp

/-- Witness state for the C4 counterexample: window title `"ab"`, no URL,
one accessibility node named `"cd"`. The goal keyword `"bcd"` spans the
window/name boundary of the direct concatenation `"abcd"` but not of the
space-separated text `"ab cd"` the code builds. -/
def cexStateC4 : ExecutionState :=
  { screenshotBase64 := ""
    accessibilityTree := Json.obj [("name", Json.str "cd")]
    activeWindow := "ab"
    url := none
    success := true
    error := none }

/-- A two-character CJK word (U+5FAE U+4FE1, six UTF-8 bytes): the claim's
character-count filter drops it while the code's byte-length filter keeps
it. -/
def cjkWord : String := String.mk [Char.ofNat 0x5fae, Char.ofNat 0x4fe1]

/-- Witness state whose window title is the CJK word itself. -/
def cjkStateC4 : ExecutionState :=
  { screenshotBase64 := ""
    accessibilityTree := Json.null
    activeWindow := cjkWord
    url := none
    success := true
    error := none }

/-- C4 (counterexample): the claimed characterisation disagrees with
`check_goal_in_a11y` on two counts. (1) Separator: for goal `"bcd"`, window
`"ab"` and a node named `"cd"`, the keyword `"bcd"` is a substring of the
direct concatenation `"abcd"` the claim describes, so the claim-side
predicate holds, but the code joins the pieces with spaces and returns
`false`. (2) Length filter: for a goal that is one two-character CJK word
shown in the window title, the claim drops the token (length 2 characters
at most 2) and demands `false`, but the code's `w.len() > 2` counts UTF-8
bytes (6), keeps the keyword, and returns `true`. -/
theorem C4_keyword_check_counterexample :
    (specCheckGoalConcat "bcd" cexStateC4 = true ∧
        checkGoalInA11y "bcd" cexStateC4 = false) ∧
      checkGoalInA11y cjkWord cjkStateC4 = true ∧
        specCheckGoalConcat cjkWord cjkStateC4 = false := by
  refine ⟨⟨?_, ?_⟩, ?_, ?_⟩ <;> rfl

/-- C4 (amended): `check_goal_in_a11y` returns true iff, after lowercasing
the goal, splitting on whitespace, dropping stop-words and every token
whose UTF-8 byte length is at most 2 (the code's length test counts bytes,
not characters), some remaining keyword is a substring of the lowercase
space-separated concatenation of the active window title, the URL when
present, and every non-empty name field in depth-first walk order; with no
keywords remaining it returns false. -/
theorem C4_keyword_check_bytes_spaced (goal : String) (st : ExecutionState) :
    checkGoalInA11y goal st = specCheckGoalSpaced goal st := by
  unfold checkGoalInA11y specCheckGoalSpaced
  rw [specKeywordsBytes_eq_goalKeywords, searchableText_eq_spaced]

/-! Desktop accessibility tree (`automation/windows_ui.rs`). -/

/-- Model of `Bounds` (`windows_ui.rs:56-61`); the `f64` coordinates are
modelled as `Int` (no claim depends on fractional coordinates). -/
structure Bounds where
  x : Int
  y : Int
  width : Int
  height : Int
deriving Repr, DecidableEq

/-- Model of `AXNode` (`windows_ui.rs:43-53`). -/
inductive AXNode where
  | node :
      (nodeId : String) → (role : String) → (name : Option String) →
      (value : Option String) → (textContent : Option String) →
      (bounds : Option Bounds) → (focusable : Bool) → (isLeaf : Bool) →
      (children : List AXNode) → AXNode
deriving Repr

/-- The `name` field of an `AXNode`. -/
def AXNode.name : AXNode → Option String
  | .node _ _ n _ _ _ _ _ _ => n

/-- The `node_id` field of an `AXNode`. -/
def AXNode.nodeId : AXNode → String
  | .node i _ _ _ _ _ _ _ _ => i

/-- The `children` field of an `AXNode`. -/
def AXNode.children : AXNode → List AXNode
  | .node _ _ _ _ _ _ _ _ c => c

theorem AXNode.sizeOf_children_lt (nd : AXNode) : sizeOf nd.children < sizeOf nd := by
  cases nd
  simp [AXNode.children]

/-- Model of `find_node_by_name` (`windows_ui.rs:1112-1122`): for each node
in order, return it if its `name` equals the query exactly, else search its
children, else continue with the remaining siblings. -/
def findNodeByName (nodes : List AXNode) (name : String) : Option AXNode :=
  match nodes with
  | [] => none
  | nd :: rest =>
    if nd.name = some name then some nd
    else
      match findNodeByName nd.children name with
      | some found => some found
      | none => findNodeByName rest name
termination_by sizeOf nodes
decreasing_by
  · have := AXNode.sizeOf_children_lt nd
    simp
    omega
  · simp

/-- Depth-first pre-order flattening of a forest of `AXNode`s: a node before
its children, children before later siblings. -/
def preorder (nodes : List AXNode) : List AXNode :=
  match nodes with
  | [] => []
  | nd :: rest => nd :: (preorder nd.children ++ preorder rest)
termination_by sizeOf nodes
decreasing_by
  · have := AXNode.sizeOf_children_lt nd
    simp
    omega
  · simp

theorem findNodeByName_eq_find_preorder (nodes : List AXNode) (nm : String) :
    findNodeByName nodes nm =
      (preorder nodes).find? (fun nd => decide (nd.name = some nm)) := by
  match nodes with
  | [] => rw [findNodeByName, preorder]; rfl
  | nd :: rest =>
    rw [findNodeByName, preorder]
    by_cases h : nd.name = some nm
    · rw [if_pos h]
      rw [List.find?_cons_of_pos _ (by simpa using h)]
    · rw [if_neg h]
      rw [findNodeByName_eq_find_preorder nd.children nm,
        findNodeByName_eq_find_preorder rest nm]
      rw [List.find?_cons_of_neg _ (by simpa using h), List.find?_append]
      cases hx : (preorder nd.children).find? (fun nd => decide (nd.name = some nm)) with
      | none => simp [Option.or]
      | some found => simp [Option.or]
termination_by sizeOf nodes
decreasing_by
  · have := AXNode.sizeOf_children_lt nd
    simp
    omega
  · simp

/-- C10: desktop element lookup by name (`find_node_by_name`, used by
`click_by_name` and every `name:`-addressed arm of the desktop
`execute_llm_action`) returns exactly the first node of the depth-first
pre-order traversal whose `name` field equals the query by full,
case-sensitive string equality; consequently any node it returns has a name
exactly equal to the query (never a mere substring or case-insensitive
match). -/
theorem C10_find_by_name_exact_preorder (nodes : List AXNode) (nm : String) :
    findNodeByName nodes nm =
        (preorder nodes).find? (fun nd => decide (nd.name = some nm)) ∧
      ∀ nd, findNodeByName nodes nm = some nd → nd.name = some nm := by
  refine ⟨findNodeByName_eq_find_preorder nodes nm, ?_⟩
  intro nd hnd
  rw [findNodeByName_eq_find_preorder nodes nm] at hnd
  have := List.find?_some hnd
  simpa using this

/-- A concrete button node for the C10 witness. -/
def witNodeC10 : AXNode :=
  .node "1" "Button" (some "OK") none none none false false []

/-- C10 (witness): the lookup theorem applied at a concrete tree. -/
theorem C10_find_by_name_exact_preorder_witness :
    findNodeByName [witNodeC10] "OK" = some witNodeC10 ∧
      witNodeC10.name = some "OK" := by
  have hf : findNodeByName [witNodeC10] "OK" = some witNodeC10 := by
    rw [findNodeByName]
    simp [witNodeC10, AXNode.name]
  exact ⟨hf, (C10_find_by_name_exact_preorder [witNodeC10] "OK").2 witNodeC10 hf⟩

/-! LLM reply parsing (`ai/claude.rs`).

The reply text is modelled as `List Char`; Rust byte offsets become character
offsets (consistently throughout, which preserves all slicing identities used
by the code). `serde_json::from_str` is modelled by a fuel-indexed recursive
descent JSON parser; JSON numbers are modelled as integers and `\u` string
escapes are not modelled (no claim exercises them). -/

/-- The backtick character, written via its code point. -/
def backtick : Char := '\x60'

/-- Model of `ActionCommand` (`main.rs:11-16`). -/
structure ActionCommand where
  actionType : String
  target : Json
  params : Option Json
  reasoning : Option String
deriving Repr

/-- JSON whitespace skipping (serde skips blanks between tokens). -/
def skipWsL (cs : List Char) : List Char := cs.dropWhile (fun c => c.isWhitespace)

/-- Model of `str::trim`: strip whitespace from both ends. -/
def trimList (cs : List Char) : List Char :=
  ((cs.dropWhile (fun c => c.isWhitespace)).reverse.dropWhile
    (fun c => c.isWhitespace)).reverse

/-- JSON string escape table (`\u` escapes are not modelled). -/
def escapeChar (c : Char) : Option Char :=
  if c = '"' then some '"'
  else if c = '\\' then some '\\'
  else if c = '/' then some '/'
  else if c = 'n' then some '\n'
  else if c = 't' then some '\t'
  else if c = 'r' then some '\r'
  else if c = 'b' then some '\x08'
  else if c = 'f' then some '\x0c'
  else none

/-- Worker for JSON string literal parsing, after the opening quote. -/
def parseJsonStringGo : List Char → List Char → Option (String × List Char)
  | [], _ => none
  | '\\' :: [], _ => none
  | '\\' :: e :: r2, acc =>
    match escapeChar e with
    | some ec => parseJsonStringGo r2 (ec :: acc)
    | none => none
  | c :: rest, acc =>
    if c = '"' then some (String.mk acc.reverse, rest)
    else parseJsonStringGo rest (c :: acc)

/-- Parse a JSON string literal body (the opening quote already consumed). -/
def parseJsonString (cs : List Char) : Option (String × List Char) :=
  parseJsonStringGo cs []

/-- Parse an unsigned decimal integer (at least one digit); fractions and
exponents are rejected (out of modelled scope). -/
def parseNatNum (cs : List Char) : Option (Nat × List Char) :=
  let digits := cs.takeWhile Char.isDigit
  let rest := cs.dropWhile Char.isDigit
  if digits.isEmpty then none
  else
    match rest with
    | c :: _ => if c = '.' || c = 'e' || c = 'E' then none
                else some (digits.foldl (fun a c => a * 10 + (c.toNat - 48)) 0, rest)
    | [] => some (digits.foldl (fun a c => a * 10 + (c.toNat - 48)) 0, rest)

/-- Parse a JSON number (integer fragment only). -/
def parseJsonNum (cs : List Char) : Option (Json × List Char) :=
  match cs with
  | '-' :: rest => (parseNatNum rest).map (fun p => (Json.num (-(p.1 : Int)), p.2))
  | _ => (parseNatNum cs).map (fun p => (Json.num (p.1 : Int), p.2))

mutual
/-- Fuel-indexed JSON value parser (model of the `serde_json` grammar on the
fragment used by the program). -/
def parseJsonValue : Nat → List Char → Option (Json × List Char)
  | 0, _ => none
  | fuel + 1, cs =>
    match skipWsL cs with
    | 'n' :: 'u' :: 'l' :: 'l' :: rest => some (.null, rest)
    | 't' :: 'r' :: 'u' :: 'e' :: rest => some (.bool true, rest)
    | 'f' :: 'a' :: 'l' :: 's' :: 'e' :: rest => some (.bool false, rest)
    | '"' :: rest => (parseJsonString rest).map (fun p => (.str p.1, p.2))
    | c :: rest =>
      if c = lbrace then
        match skipWsL rest with
        | c2 :: r2 =>
          if c2 = rbrace then some (.obj [], r2)
          else (parseJsonMembers fuel rest).map (fun p => (.obj p.1, p.2))
        | [] => none
      else if c = '[' then
        match skipWsL rest with
        | ']' :: r2 => some (.arr [], r2)
        | _ => (parseJsonElems fuel rest).map (fun p => (.arr p.1, p.2))
      else if c = '-' || c.isDigit then parseJsonNum (c :: rest)
      else none
    | [] => none

/-- Parse one or more `"key": value` members of a JSON object, ending at the
closing brace. -/
def parseJsonMembers : Nat → List Char → Option (List (String × Json) × List Char)
  | 0, _ => none
  | fuel + 1, cs =>
    match skipWsL cs with
    | '"' :: rest =>
      match parseJsonString rest with
      | some (key, r1) =>
        match skipWsL r1 with
        | ':' :: r2 =>
          match parseJsonValue fuel r2 with
          | some (v, r3) =>
            match skipWsL r3 with
            | ',' :: r4 =>
              (parseJsonMembers fuel r4).map (fun p => ((key, v) :: p.1, p.2))
            | c :: r4 =>
              if c = rbrace then some ([(key, v)], r4) else none
            | [] => none
          | none => none
        | _ => none
      | none => none
    | _ => none

/-- Parse one or more elements of a JSON array, ending at `]`. -/
def parseJsonElems : Nat → List Char → Option (List Json × List Char)
  | 0, _ => none
  | fuel + 1, cs =>
    match parseJsonValue fuel cs with
    | some (v, r1) =>
      match skipWsL r1 with
      | ',' :: r2 => (parseJsonElems fuel r2).map (fun p => (v :: p.1, p.2))
      | ']' :: r2 => some ([v], r2)
      | _ => none
    | none => none
end

/-- Model of `serde_json::from_str::<Value>`: a full parse with only
whitespace allowed after the value. -/
def fromStrJson (cs : List Char) : Option Json :=
  match parseJsonValue (cs.length + 1) cs with
  | some (v, rest) => if (skipWsL rest).isEmpty then some v else none
  | none => none

/-- Decode an `ActionCommand` from a JSON value (model of the serde derive:
`action_type` is a required string, `target` a required value, `params` and
`reasoning` optional with `null` mapping to `None`; unknown keys ignored). -/
def decodeAction (j : Json) : Option ActionCommand :=
  match j with
  | .obj _ =>
    match j.get "action_type" with
    | some (.str aty) =>
      match j.get "target" with
      | some tgt =>
        let params :=
          match j.get "params" with
          | none => none
          | some .null => none
          | some v => some v
        match j.get "reasoning" with
        | none => some ⟨aty, tgt, params, none⟩
        | some .null => some ⟨aty, tgt, params, none⟩
        | some (.str s) => some ⟨aty, tgt, params, some s⟩
        | some _ => none
      | none => none
    | _ => none
  | _ => none

/-- Model of `serde_json::from_str::<ActionCommand>`. -/
def fromStrAction (cs : List Char) : Option ActionCommand :=
  (fromStrJson cs).bind decodeAction

/-- Model of `str::find(&str)`: index of the first occurrence of `pat`. -/
def findSub (hs pat : List Char) : Option Nat :=
  if pat.isPrefixOf hs then some 0
  else
    match hs with
    | [] => none
    | _ :: rest => (findSub rest pat).map (· + 1)

/-- Model of `str::find(char)`: index of the first occurrence of `c`. -/
def findChar (hs : List Char) (c : Char) : Option Nat :=
  match hs with
  | [] => none
  | x :: rest => if x = c then some 0 else (findChar rest c).map (· + 1)

/-- The brace-depth scan of parsing strategy 3 (`claude.rs:484-497`): walk
the characters keeping a signed depth; on a closing brace that brings the
depth to zero, return the offset one past it. Every brace character counts,
including braces inside JSON string literals. -/
def braceScanGo : List Char → Int → Nat → Option Nat
  | [], _, _ => none
  | c :: rest, depth, i =>
    if c = lbrace then braceScanGo rest (depth + 1) (i + 1)
    else if c = rbrace then
      if depth - 1 = 0 then some (i + 1) else braceScanGo rest (depth - 1) (i + 1)
    else braceScanGo rest depth (i + 1)

/-- The brace scan started at depth 0, offset 0. -/
def braceScan (cs : List Char) : Option Nat := braceScanGo cs 0 0

/-- The opening code fence searched by strategy 1. -/
def fenceJson : List Char := "```json".toList

/-- The bare code fence searched by strategies 1 and 2. -/
def fenceAny : List Char := "```".toList

/-- Model of the reply-text extraction of `parse_response`
(`claude.rs:460-511`), strategies in order:
1. text inside a ```` ```json … ``` ```` fence;
2. text inside a bare ```` ``` … ``` ```` fence;
3. the brace-balanced substring from the first `'\x7b'`;
4. the whole trimmed reply;
returning the first that decodes as an `ActionCommand`. The error value
carries the raw text (the Rust message string is not modelled further). -/
def parseActionText (t : List Char) : Except (List Char) ActionCommand :=
  let s1 :=
    match findSub t fenceJson with
    | some start =>
      let after := t.drop (start + 7)
      match findSub after fenceAny with
      | some e => fromStrAction (trimList (after.take e))
      | none => none
    | none => none
  match s1 with
  | some a => .ok a
  | none =>
    let s2 :=
      match findSub t fenceAny with
      | some start =>
        let after := t.drop (start + 3)
        match findSub after fenceAny with
        | some e => fromStrAction (trimList (after.take e))
        | none => none
      | none => none
    match s2 with
    | some a => .ok a
    | none =>
      let s3 :=
        match findChar t lbrace with
        | some start =>
          let sub := t.drop start
          match braceScan sub with
          | some n => fromStrAction (sub.take n)
          | none => none
        | none => none
      match s3 with
      | some a => .ok a
      | none =>
        match fromStrAction (trimList t) with
        | some a => .ok a
        | none => .error t

theorem findSub_none_of_head_not_mem (hs p' : List Char) (c : Char) (h : c ∉ hs) :
    findSub hs (c :: p') = none := by
  induction hs with
  | nil => simp [findSub, List.isPrefixOf]
  | cons x rest ih =>
    have hx : c ≠ x := fun he => h (he ▸ List.mem_cons_self x rest)
    have hpre : ¬((c :: p') <+: (x :: rest)) := by
      rw [List.cons_prefix_cons]
      exact fun hp => hx hp.1
    rw [findSub, if_neg (by simpa using hpre)]
    rw [ih (fun hm => h (List.mem_cons_of_mem x hm))]
    rfl

theorem findSub_at_append (xs ys p' : List Char) (c : Char) (h : c ∉ xs) :
    findSub (xs ++ (c :: p') ++ ys) (c :: p') = some xs.length := by
  induction xs with
  | nil =>
    rw [List.nil_append, findSub.eq_def, if_pos (by simp)]
    rfl
  | cons x rest ih =>
    have hx : c ≠ x := fun he => h (he ▸ List.mem_cons_self x rest)
    have hpre : ¬((c :: p') <+: (x :: (rest ++ (c :: p') ++ ys))) := by
      rw [List.cons_prefix_cons]
      exact fun hp => hx hp.1
    rw [List.cons_append, List.cons_append, findSub, if_neg (by simpa using hpre)]
    rw [ih (fun hm => h (List.mem_cons_of_mem x hm))]
    simp

theorem findChar_at_append (pre rest : List Char) (c : Char)
    (h1 : c ∉ pre) (h2 : rest.head? = some c) :
    findChar (pre ++ rest) c = some pre.length := by
  induction pre with
  | nil =>
    cases rest with
    | nil => simp at h2
    | cons r rs =>
      cases h2
      simp [findChar]
  | cons x xs ih =>
    have hx : x ≠ c := fun he => h1 (he ▸ List.mem_cons_self x xs)
    rw [List.cons_append, findChar, if_neg hx,
      ih (fun hm => h1 (List.mem_cons_of_mem x hm))]
    simp

theorem braceScanGo_append (cs ys : List Char) (d : Int) (i n : Nat)
    (h : braceScanGo cs d i = some n) : braceScanGo (cs ++ ys) d i = some n := by
  induction cs generalizing d i with
  | nil => simp [braceScanGo] at h
  | cons c rest ih =>
    rw [List.cons_append, braceScanGo]
    rw [braceScanGo] at h
    by_cases hl : c = lbrace
    · rw [if_pos hl] at h ⊢
      exact ih _ _ h
    · rw [if_neg hl] at h ⊢
      by_cases hr : c = rbrace
      · rw [if_pos hr] at h ⊢
        by_cases hd : d - 1 = 0
        · rw [if_pos hd] at h ⊢
          exact h
        · rw [if_neg hd] at h ⊢
          exact ih _ _ h
      · rw [if_neg hr] at h ⊢
        exact ih _ _ h

theorem dropWhile_of_head_false (p : Char → Bool) (l : List Char) (c : Char)
    (h : l.head? = some c) (hc : p c = false) : l.dropWhile p = l := by
  cases l with
  | nil => rfl
  | cons x xs =>
    cases h
    simp [List.dropWhile_cons, hc]

theorem trimList_wrap (A : List Char)
    (h1 : A.head? = some lbrace) (h2 : A.getLast? = some rbrace) :
    trimList ('\n' :: (A ++ ['\n'])) = A := by
  unfold trimList
  have hws : ('\n' : Char).isWhitespace = true := rfl
  rw [List.dropWhile_cons, if_pos (by simp [hws])]
  have hA : (A ++ ['\n']).head? = some lbrace := by
    cases A with
    | nil => simp at h1
    | cons a as =>
      cases h1
      rfl
  rw [dropWhile_of_head_false _ _ _ hA (by rfl)]
  rw [List.reverse_append]
  have hrev : (A.reverse).head? = some rbrace := by
    rw [List.head?_reverse]
    exact h2
  rw [show ([('\n' : Char)].reverse ++ A.reverse) = '\n' :: A.reverse by rfl]
  rw [List.dropWhile_cons, if_pos (by simp [hws])]
  rw [dropWhile_of_head_false _ _ _ hrev (by rfl)]
  exact List.reverse_reverse A

theorem findChar_of_head (l : List Char) (c : Char) (h : l.head? = some c) :
    findChar l c = some 0 := by
  cases l with
  | nil => simp at h
  | cons x xs =>
    have hx : x = c := by simpa using h
    simp [findChar, hx]

theorem parseActionText_bare (A : List Char) (act : ActionCommand)
    (h1 : fromStrAction A = some act)
    (h2 : A.head? = some lbrace)
    (h3 : braceScan A = some A.length)
    (h4 : backtick ∉ A) :
    parseActionText A = .ok act := by
  have e1 : findSub A fenceJson = none := by
    rw [show fenceJson = backtick :: "``json".toList from rfl]
    exact findSub_none_of_head_not_mem _ _ _ h4
  have e2 : findSub A fenceAny = none := by
    rw [show fenceAny = backtick :: "``".toList from rfl]
    exact findSub_none_of_head_not_mem _ _ _ h4
  have e3 : findChar A lbrace = some 0 := findChar_of_head A lbrace h2
  unfold parseActionText
  simp only [e1, e2, e3, List.drop_zero, h3, List.take_length, h1]

theorem parseActionText_fenced (A : List Char) (act : ActionCommand)
    (h1 : fromStrAction A = some act)
    (h2 : A.head? = some lbrace)
    (h2' : A.getLast? = some rbrace)
    (h4 : backtick ∉ A) :
    parseActionText ("```json\n".toList ++ A ++ "\n```".toList) = .ok act := by
  have ht : "```json\n".toList ++ A ++ "\n```".toList =
      fenceJson ++ ('\n' :: (A ++ '\n' :: fenceAny)) := by
    simp [fenceJson, fenceAny]
  rw [ht]
  have e1 : findSub (fenceJson ++ ('\n' :: (A ++ '\n' :: fenceAny))) fenceJson =
      some 0 := by
    rw [findSub.eq_def, if_pos (by simp)]
  have hdrop : (fenceJson ++ ('\n' :: (A ++ '\n' :: fenceAny))).drop (0 + 7) =
      '\n' :: (A ++ '\n' :: fenceAny) :=
    List.drop_left' (by rfl)
  have hsplit : '\n' :: (A ++ '\n' :: fenceAny) =
      ('\n' :: (A ++ ['\n'])) ++ fenceAny ++ [] := by
    simp
  have e2 : findSub ('\n' :: (A ++ '\n' :: fenceAny)) fenceAny =
      some (('\n' :: (A ++ ['\n'])).length) := by
    rw [hsplit, show fenceAny = backtick :: "``".toList from rfl]
    apply findSub_at_append
    intro hm
    rcases List.mem_cons.mp hm with hh | hh
    · exact absurd hh (by decide)
    · rcases List.mem_append.mp hh with hh2 | hh2
      · exact h4 hh2
      · exact absurd (List.mem_singleton.mp hh2) (by decide)
  have htake : ('\n' :: (A ++ '\n' :: fenceAny)).take
      (('\n' :: (A ++ ['\n'])).length) = '\n' :: (A ++ ['\n']) := by
    conv in ('\n' :: (A ++ '\n' :: fenceAny)) => rw [hsplit]
    rw [List.append_nil, List.take_left]
  have htrim : trimList ('\n' :: (A ++ ['\n'])) = A := trimList_wrap A h2 h2'
  unfold parseActionText
  simp only [e1, hdrop, e2, htake, htrim, h1]

theorem parseActionText_wrapped (A pre suf : List Char) (act : ActionCommand)
    (h1 : fromStrAction A = some act)
    (h2 : A.head? = some lbrace)
    (h3 : braceScan A = some A.length)
    (h4 : backtick ∉ A)
    (h5 : lbrace ∉ pre)
    (h6 : backtick ∉ pre)
    (h7 : backtick ∉ suf) :
    parseActionText (pre ++ A ++ suf) = .ok act := by
  have hmem : backtick ∉ pre ++ A ++ suf := by
    intro hm
    rcases List.mem_append.mp hm with hh | hh
    · rcases List.mem_append.mp hh with hh2 | hh2
      · exact h6 hh2
      · exact h4 hh2
    · exact h7 hh
  have e1 : findSub (pre ++ A ++ suf) fenceJson = none := by
    rw [show fenceJson = backtick :: "``json".toList from rfl]
    exact findSub_none_of_head_not_mem _ _ _ hmem
  have e2 : findSub (pre ++ A ++ suf) fenceAny = none := by
    rw [show fenceAny = backtick :: "``".toList from rfl]
    exact findSub_none_of_head_not_mem _ _ _ hmem
  have hheadAS : (A ++ suf).head? = some lbrace := by
    cases A with
    | nil => simp at h2
    | cons a as =>
      have : a = lbrace := by simpa using h2
      simp [this]
  have e3 : findChar (pre ++ A ++ suf) lbrace = some pre.length := by
    rw [List.append_assoc]
    exact findChar_at_append pre (A ++ suf) lbrace h5 hheadAS
  have hdrop : (pre ++ A ++ suf).drop pre.length = A ++ suf := by
    rw [List.append_assoc]
    exact List.drop_left pre (A ++ suf)
  have e4 : braceScan (A ++ suf) = some A.length := by
    unfold braceScan at h3 ⊢
    exact braceScanGo_append A suf 0 0 A.length h3
  have e5 : (A ++ suf).take A.length = A := List.take_left A suf
  unfold parseActionText
  simp only [e1, e2, e3, hdrop, e4, e5, h1]

/-- The reply text `\x7b"action_type":"c","target":"\x7b"\x7d`: a well-formed
JSON action whose `target` string value contains a brace character. -/
def cexReplyA0 : List Char := "\x7b\"action_type\":\"c\",\"target\":\"\x7b\"\x7d".toList

/-- The action encoded by `cexReplyA0`. -/
def cexAction0 : ActionCommand :=
  { actionType := "c", target := Json.str "\x7b", params := none, reasoning := none }

/-- C2 (counterexample): the claim fails as stated. The reply
`\x7b"action_type":"c","target":"\x7b"\x7d` is a well-formed JSON action
(parsing it bare succeeds and yields the action), but parsing it surrounded
by `"prefix "` and `" suffix"` fails: the brace inside the string value
derails the naive brace-depth scan of strategy 3, and the whole text is not
valid JSON for strategy 4. -/
theorem C2_prefix_surround_counterexample :
    fromStrAction cexReplyA0 = some cexAction0 ∧
      parseActionText cexReplyA0 = .ok cexAction0 ∧
      (parseActionText ("prefix ".toList ++ cexReplyA0 ++ " suffix".toList)).toOption
        = none := by
  refine ⟨rfl, rfl, rfl⟩

/-- C2 (amended): for every reply text `A` that decodes as an action, starts
with `'\x7b'` and ends with `'\x7d'`, whose naive brace scan (counting every
brace character, including those inside string literals) balances exactly at
the end of `A`, and which contains no backtick, parsing `A` wrapped in a
```json fence, parsing `A` bare, and parsing `A` surrounded by a prefix
containing no opening brace or backtick and a suffix containing no backtick,
all succeed and return exactly the action decoded from `A`. -/
theorem C2_parse_strategies_amended (A pre suf : List Char) (act : ActionCommand)
    (h1 : fromStrAction A = some act)
    (h2 : A.head? = some lbrace)
    (h2' : A.getLast? = some rbrace)
    (h3 : braceScan A = some A.length)
    (h4 : backtick ∉ A)
    (h5 : lbrace ∉ pre)
    (h6 : backtick ∉ pre)
    (h7 : backtick ∉ suf) :
    parseActionText ("```json\n".toList ++ A ++ "\n```".toList) = .ok act ∧
      parseActionText A = .ok act ∧
      parseActionText (pre ++ A ++ suf) = .ok act :=
  ⟨parseActionText_fenced A act h1 h2 h2' h4,
   parseActionText_bare A act h1 h2 h3 h4,
   parseActionText_wrapped A pre suf act h1 h2 h3 h4 h5 h6 h7⟩

/-- A well-formed action reply text with no braces inside string values. -/
def witReplyA1 : List Char :=
  "\x7b\"action_type\":\"click\",\"target\":\"name:OK\"\x7d".toList

/-- The action encoded by `witReplyA1`. -/
def witAction1 : ActionCommand :=
  { actionType := "click", target := Json.str "name:OK",
    params := none, reasoning := none }

/-- C2 (witness): the amended theorem applied at a concrete reply. -/
theorem C2_parse_strategies_amended_witness :
    parseActionText ("```json\n".toList ++ witReplyA1 ++ "\n```".toList)
        = .ok witAction1 ∧
      parseActionText witReplyA1 = .ok witAction1 ∧
      parseActionText ("prefix ".toList ++ witReplyA1 ++ " suffix".toList)
        = .ok witAction1 :=
  C2_parse_strategies_amended witReplyA1 "prefix ".toList " suffix".toList
    witAction1 rfl rfl rfl rfl (by decide) (by decide) (by decide) (by decide)

/-! The orchestrator loop of `approve_action` (`main.rs:128-430`).

The non-deterministic environment (mode detection, action execution,
observation, LLM calls, clock) is an oracle `Env` indexed by a logical clock;
every oracle call consumes one tick, so distinct call sites read distinct
indices. The loop is modelled by `innerLoop` (the per-step retry loop,
`main.rs:203-311`), `loopIter` (one iteration of the outer `for` loop) and
`runLoop` (the outer loop with its budget of 20 iterations). The constructors
of `InnerOut` carry, besides the orchestrator state, ghost observations (the
detector value immediately before the successful execution, the detector
value re-read after it, and the number of execution attempts) used only by
theorems. -/

/-- Model of `HistoryEntry` (`main.rs:29-41`). -/
structure HistoryEntry where
  timestamp : String
  stepNumber : Nat
  userInput : Option String
  llmReasoning : String
  action : ActionCommand
  success : Bool
  error : Option String
  mode : String
  windowContext : String
  inputTokens : Option Nat
  outputTokens : Option Nat
deriving Repr

/-- Model of `AutomationMode` (`main.rs:584-588`). -/
inductive AutomationMode where
  | browser : AutomationMode
  | desktop : AutomationMode
deriving Repr, DecidableEq

/-- The mode strings of `approve_action` (`main.rs:146,232`). -/
def modeStr : AutomationMode → String
  | .browser => "browser"
  | .desktop => "desktop"

/-- The fields of `LLMResponse` the orchestrator uses (`claude.rs:15-21`). -/
structure LLMResp where
  action : ActionCommand
  inputTokens : Nat
  outputTokens : Nat
deriving Repr

/-- Oracle for everything outside the orchestrator's control, indexed by a
logical clock. `detect` is `detect_automation_mode`; `execOk`/`execErr` give
the outcome of the executed action; `obs` is `get_current_state_auto`;
`llmNext`/`llmRetry` are `get_next_action`/`get_retry_action`; `now` is the
timestamp source. -/
structure Env where
  detect : Nat → AutomationMode
  execOk : Nat → Bool
  execErr : Nat → String
  obs : Nat → Except String ExecutionState
  llmNext : Nat → Except String LLMResp
  llmRetry : Nat → Except String LLMResp
  now : Nat → String

/-- The orchestrator's per-goal loop state: the shared `AppState` pieces it
mutates (`history`, `pending`) plus the local variables of `approve_action`. -/
structure OrchSt where
  history : List HistoryEntry
  pending : Option ActionCommand
  goal : String
  curAction : ActionCommand
  curModeStr : String
  initialModeStr : String
  consecutive : Nat
  curState : ExecutionState
  clock : Nat
deriving Repr

/-- Model of `execute_action_auto` (`main.rs:678-683`) as seen by the loop:
the mode detector runs first (choosing the back-end), then the action
executes; the caller only uses the success/error outcome. Returns the
outcome, the detector value (ghost), and the advanced clock. -/
def execAuto (env : Env) (t : Nat) : Except String Unit × AutomationMode × Nat :=
  let preMode := env.detect t
  let r := if env.execOk (t + 1) then Except.ok () else Except.error (env.execErr (t + 1))
  (r, preMode, t + 2)

/-- Result of the per-step retry loop. `success` carries the detector value
read by `execAuto` immediately before the successful execution (`preMode`),
the detector value re-read after it (`postMode`), and the attempt count;
`failure` carries the attempt count; `llmErr` is the early `Err` return when
`get_retry_action` fails. -/
inductive InnerOut where
  | success : OrchSt → AutomationMode → AutomationMode → Nat → InnerOut
  | failure : OrchSt → Nat → InnerOut
  | llmErr : String → OrchSt → InnerOut
deriving Repr

/-- Model of the retry loop of `approve_action` (`main.rs:203-311`).
`remRetries` is the number of retries still allowed (initially 4, so at most
5 attempts: `retry_count < max_retries_per_step` ⟷ `remRetries > 0`). -/
def innerLoop (env : Env) (goal : String) (stepNumber : Nat) :
    Nat → ActionCommand → OrchSt → InnerOut
  | remRetries, action, st =>
    match execAuto env st.clock with
    | (.ok _, preMode, t1) =>
      let fresh :=
        match env.obs t1 with
        | .ok s => s
        | .error _ => st.curState
      let newMode := env.detect (t1 + 1)
      let newModeStr := modeStr newMode
      let modeChanged := newModeStr ≠ st.curModeStr
      let curModeStr' := if modeChanged then newModeStr else st.curModeStr
      let reasoning :=
        if modeChanged then
          action.reasoning.getD "" ++ " [MODE: " ++ st.initialModeStr ++ " -> "
            ++ newModeStr ++ "]"
        else action.reasoning.getD ""
      let entry : HistoryEntry :=
        { timestamp := env.now (t1 + 2)
          stepNumber
          userInput := if stepNumber = 1 then some goal else none
          llmReasoning := reasoning
          action := action
          success := true
          error := none
          mode := curModeStr'
          windowContext := fresh.activeWindow
          inputTokens := none
          outputTokens := none }
      .success
        { st with
            history := st.history ++ [entry]
            curModeStr := curModeStr'
            curState := fresh
            consecutive := st.consecutive + 1
            clock := t1 + 3 }
        preMode newMode 1
    | (.error e, _, t1) =>
      match remRetries with
      | r + 1 =>
        match env.llmRetry t1 with
        | .error m => .llmErr m { st with clock := t1 + 1 }
        | .ok resp =>
          match innerLoop env goal stepNumber r resp.action { st with clock := t1 + 1 } with
          | .success st' pre post n => .success st' pre post (n + 1)
          | .failure st' n => .failure st' (n + 1)
          | .llmErr m st' => .llmErr m st'
      | 0 =>
        let entry : HistoryEntry :=
          { timestamp := env.now t1
            stepNumber
            userInput := if stepNumber = 1 then some goal else none
            llmReasoning := action.reasoning.getD ""
            action := action
            success := false
            error := some e
            mode := st.curModeStr
            windowContext := st.curState.activeWindow
            inputTokens := none
            outputTokens := none }
        .failure
          { st with
              history := st.history ++ [entry]
              consecutive := 0
              clock := t1 + 1 }
          1

/-- Result of one iteration of the outer loop: an early return from
`approve_action` or the state for the next iteration. -/
inductive IterOut where
  | ret : Except String ExecutionState → OrchSt → IterOut
  | cont : OrchSt → IterOut
deriving Repr

/-- The orchestrator state carried by an `IterOut`. -/
def IterOut.stateOf : IterOut → OrchSt
  | .ret _ st => st
  | .cont st => st

/-- Model of the token back-fill (`main.rs:416-422`): the most recent history
entry, when one exists, receives the token counters of the LLM call. -/
def backfillTokens (hist : List HistoryEntry) (inTok outTok : Nat) :
    List HistoryEntry :=
  match hist.getLast? with
  | none => hist
  | some last =>
    hist.dropLast ++ [{ last with inputTokens := some inTok, outputTokens := some outTok }]

/-- Model of the tail of an outer-loop iteration (`main.rs:385-424`): call
`get_next_action`, back-fill the token counters onto the last history entry,
and carry the returned action into the next iteration; an LLM error is an
early `Err` return. -/
def nextActionStep (env : Env) (st : OrchSt) : IterOut :=
  match env.llmNext st.clock with
  | .error e => .ret (.error e) { st with clock := st.clock + 1 }
  | .ok resp =>
    .cont
      { st with
          history := backfillTokens st.history resp.inputTokens resp.outputTokens
          curAction := resp.action
          clock := st.clock + 1 }

/-- Model of the post-failure re-observation (`main.rs:379-383`): a failed
step re-reads the state (`?` propagates an observation error) and then asks
for the next action. -/
def afterFailureStep (env : Env) (st : OrchSt) : IterOut :=
  match env.obs st.clock with
  | .error e => .ret (.error e) { st with clock := st.clock + 1 }
  | .ok s2 => nextActionStep env { st with curState := s2, clock := st.clock + 1 }

/-- The error text of the synthesized incomplete entry (`main.rs:333`). -/
def incompleteMsg : String :=
  "[INCOMPLETE] LLM did not signal completion, goal keywords not found in a11y"

/-- Model of the synthesized-completion block (`main.rs:313-377`): re-observe
(falling back to the current state on error), run the goal-keyword check on
that state, record a `smart_complete` success entry or an `auto_complete`
failure entry, clear the pending action and return the state used for the
check. -/
def autoCompleteStep (env : Env) (goal : String) (st : OrchSt) : IterOut :=
  let fresh :=
    match env.obs st.clock with
    | .ok s => s
    | .error _ => st.curState
  let goalAchieved := checkGoalInA11y goal fresh
  let completionType := if goalAchieved then "smart_complete" else "auto_complete"
  let errorMsg := if goalAchieved then none else some incompleteMsg
  let entry : HistoryEntry :=
    { timestamp := env.now (st.clock + 1)
      stepNumber := st.history.length + 1
      userInput := none
      llmReasoning :=
        "[" ++ completionType.toUpper ++ "] After " ++ toString st.consecutive
          ++ " steps - "
          ++ (if goalAchieved then "goal keywords found in a11y"
              else "LLM failed to signal, keywords not found")
      action :=
        { actionType := completionType
          target := Json.null
          params := some (Json.obj
            [("reason", Json.str (if goalAchieved then "goal_detected" else "threshold_reached")),
             ("steps", Json.num st.consecutive),
             ("goal_found", Json.bool goalAchieved)])
          reasoning := some (completionType ++ ": " ++ toString st.consecutive
            ++ " steps, goal_in_a11y=" ++ (if goalAchieved then "true" else "false")) }
      success := goalAchieved
      error := errorMsg
      mode := st.curModeStr
      windowContext := fresh.activeWindow
      inputTokens := none
      outputTokens := none }
  .ret (.ok fresh)
    { st with
        history := st.history ++ [entry]
        pending := none
        clock := st.clock + 2 }

/-- Model of the `complete`-action path (`main.rs:174-195`): record a
success entry whose `user_input` always carries the goal, clear the pending
action and return the current state. -/
def completeStep (env : Env) (st : OrchSt) : IterOut :=
  let entry : HistoryEntry :=
    { timestamp := env.now st.clock
      stepNumber := st.history.length + 1
      userInput := some st.goal
      llmReasoning := st.curAction.reasoning.getD "Goal completed"
      action := st.curAction
      success := true
      error := none
      mode := st.curModeStr
      windowContext := st.curState.activeWindow
      inputTokens := none
      outputTokens := none }
  .ret (.ok st.curState)
    { st with
        history := st.history ++ [entry]
        pending := none
        clock := st.clock + 1 }

/-- One iteration of the outer loop of `approve_action` (`main.rs:158-425`):
the `complete` action returns immediately; otherwise the retry loop runs,
and on a success that brings the consecutive-success count to the threshold
(3) the synthesized-completion block runs; otherwise the loop fetches the
next action (re-observing first after a failure). -/
def loopIter (env : Env) (st : OrchSt) : IterOut :=
  let stepNumber := st.history.length + 1
  if st.curAction.actionType = "complete" then completeStep env st
  else
    match innerLoop env st.goal stepNumber 4 st.curAction st with
    | .llmErr m st' => .ret (.error m) st'
    | .success st' _ _ _ =>
      if 3 ≤ st'.consecutive then autoCompleteStep env st.goal st'
      else nextActionStep env st'
    | .failure st' _ => afterFailureStep env st'

/-- The outer loop with its step budget (`for loop_iter in 0..20`); an
exhausted budget clears the pending action and returns the current state
(`main.rs:427-429`). -/
def runLoop (env : Env) : Nat → OrchSt → Except String ExecutionState × OrchSt
  | 0, st => (.ok st.curState, { st with pending := none })
  | fuel + 1, st =>
    match loopIter env st with
    | .ret res st' => (res, st')
    | .cont st' => runLoop env fuel st'

/-- The `AppState` fields `approve_action` touches (`main.rs:43-48`). -/
structure AppStateM where
  apiKey : Option String
  history : List HistoryEntry
  pending : Option ActionCommand
  currentGoal : Option String
deriving Repr

/-- Model of `approve_action` (`main.rs:128-430`): rejection clears the
pending action and returns `Err "Rejected"`; approval requires a pending
action, a goal and an API key, detects the initial mode, takes the initial
observation, then runs the loop. -/
def approveAction (env : Env) (approved : Bool) (app : AppStateM) (clock : Nat) :
    Except String ExecutionState × AppStateM :=
  if !approved then (.error "Rejected", { app with pending := none })
  else
    match app.pending with
    | none => (.error "No pending action", app)
    | some action =>
      match app.currentGoal with
      | none => (.error "No goal set", app)
      | some goal =>
        match app.apiKey with
        | none => (.error "No API key", app)
        | some _ =>
          let initialModeStr := modeStr (env.detect clock)
          match env.obs (clock + 1) with
          | .error e => (.error e, app)
          | .ok st0 =>
            let orch : OrchSt :=
              { history := app.history
                pending := app.pending
                goal := goal
                curAction := action
                curModeStr := initialModeStr
                initialModeStr := initialModeStr
                consecutive := 0
                curState := st0
                clock := clock + 2 }
            let (res, st') := runLoop env 20 orch
            (res, { app with history := st'.history, pending := st'.pending })

/-- Full description of the history entry recorded by a successful step of
the retry loop (`main.rs:209-271`): exactly one entry is appended; its step
number and `user_input` follow the step number; it is a success with no
error and empty token counters; its `mode` is the detector value re-read
after the execution; the consecutive-success counter increments; at most
`rem + 1` attempts were made. -/
theorem innerLoop_success_spec (env : Env) (goal : String) (step : Nat) :
    ∀ (rem : Nat) (act : ActionCommand) (st st' : OrchSt)
      (pre post : AutomationMode) (att : Nat),
      innerLoop env goal step rem act st = .success st' pre post att →
      ∃ e : HistoryEntry,
        st'.history = st.history ++ [e] ∧
        e.stepNumber = step ∧
        e.userInput = (if step = 1 then some goal else none) ∧
        e.success = true ∧
        e.error = none ∧
        e.mode = modeStr post ∧
        e.inputTokens = none ∧
        e.outputTokens = none ∧
        st'.consecutive = st.consecutive + 1 ∧
        st'.curModeStr = modeStr post ∧
        st'.pending = st.pending ∧
        st'.goal = st.goal ∧
        att ≤ rem + 1 := by
  intro rem
  induction rem with
  | zero =>
    intro act st st' pre post att h
    rw [innerLoop] at h
    cases hx : env.execOk (st.clock + 1) with
    | true =>
      simp only [execAuto, hx, if_true] at h
      cases h
      refine ⟨_, rfl, rfl, rfl, rfl, rfl, ?_, rfl, rfl, rfl, ?_, rfl, rfl, le_refl 1⟩
      · by_cases hm : modeStr (env.detect (st.clock + 2 + 1)) ≠ st.curModeStr
        · simp [hm]
        · simp [hm]
          exact (not_ne_iff.mp hm).symm
      · by_cases hm : modeStr (env.detect (st.clock + 2 + 1)) ≠ st.curModeStr
        · simp [hm]
        · simp [hm]
          exact (not_ne_iff.mp hm).symm
    | false =>
      simp only [execAuto, hx, Bool.false_eq_true, if_false] at h
      cases h
  | succ r ih =>
    intro act st st' pre post att h
    rw [innerLoop] at h
    cases hx : env.execOk (st.clock + 1) with
    | true =>
      simp only [execAuto, hx, if_true] at h
      cases h
      refine ⟨_, rfl, rfl, rfl, rfl, rfl, ?_, rfl, rfl, rfl, ?_, rfl, rfl, by omega⟩
      · by_cases hm : modeStr (env.detect (st.clock + 2 + 1)) ≠ st.curModeStr
        · simp [hm]
        · simp [hm]
          exact (not_ne_iff.mp hm).symm
      · by_cases hm : modeStr (env.detect (st.clock + 2 + 1)) ≠ st.curModeStr
        · simp [hm]
        · simp [hm]
          exact (not_ne_iff.mp hm).symm
    | false =>
      simp only [execAuto, hx, Bool.false_eq_true, if_false] at h
      cases hr : env.llmRetry (st.clock + 2) with
      | error m =>
        simp only [hr] at h
        cases h
      | ok resp =>
        simp only [hr] at h
        cases hi : innerLoop env goal step r resp.action
            { st with clock := st.clock + 2 + 1 } with
        | success st2 pre2 post2 n =>
          simp only [hi] at h
          cases h
          obtain ⟨e, he, h1, h2, h3, h4, h5, h6, h7, h8, h9, h10, h11, h12⟩ :=
            ih resp.action _ _ _ _ _ hi
          exact ⟨e, he, h1, h2, h3, h4, h5, h6, h7, h8, h9, h10, h11, by omega⟩
        | failure st2 n =>
          simp only [hi] at h
          cases h
        | llmErr m st2 =>
          simp only [hi] at h
          cases h

/-- Full description of the history entry recorded by an exhausted retry
loop (`main.rs:287-309`): exactly one entry is appended; its step number and
`user_input` follow the step number; it is a failure carrying an error and
empty token counters; its `mode` is the mode string held before the step;
the consecutive-success counter resets to 0; at most `rem + 1` attempts were
made. -/
theorem innerLoop_failure_spec (env : Env) (goal : String) (step : Nat) :
    ∀ (rem : Nat) (act : ActionCommand) (st st' : OrchSt) (att : Nat),
      innerLoop env goal step rem act st = .failure st' att →
      ∃ e : HistoryEntry,
        st'.history = st.history ++ [e] ∧
        e.stepNumber = step ∧
        e.userInput = (if step = 1 then some goal else none) ∧
        e.success = false ∧
        (∃ msg, e.error = some msg) ∧
        e.mode = st.curModeStr ∧
        e.inputTokens = none ∧
        e.outputTokens = none ∧
        st'.consecutive = 0 ∧
        st'.curModeStr = st.curModeStr ∧
        st'.pending = st.pending ∧
        st'.goal = st.goal ∧
        att ≤ rem + 1 := by
  intro rem
  induction rem with
  | zero =>
    intro act st st' att h
    rw [innerLoop] at h
    cases hx : env.execOk (st.clock + 1) with
    | true =>
      simp only [execAuto, hx, if_true] at h
      cases h
    | false =>
      simp only [execAuto, hx, Bool.false_eq_true, if_false] at h
      cases h
      exact ⟨_, rfl, rfl, rfl, rfl, ⟨_, rfl⟩, rfl, rfl, rfl, rfl, rfl, rfl, rfl,
        le_refl 1⟩
  | succ r ih =>
    intro act st st' att h
    rw [innerLoop] at h
    cases hx : env.execOk (st.clock + 1) with
    | true =>
      simp only [execAuto, hx, if_true] at h
      cases h
    | false =>
      simp only [execAuto, hx, Bool.false_eq_true, if_false] at h
      cases hr : env.llmRetry (st.clock + 2) with
      | error m =>
        simp only [hr] at h
        cases h
      | ok resp =>
        simp only [hr] at h
        cases hi : innerLoop env goal step r resp.action
            { st with clock := st.clock + 2 + 1 } with
        | success st2 pre2 post2 n =>
          simp only [hi] at h
          cases h
        | failure st2 n =>
          simp only [hi] at h
          cases h
          obtain ⟨e, he, h1, h2, h3, h4, h5, h6, h7, h8, h9, h10, h11, h12⟩ :=
            ih resp.action _ _ _ hi
          exact ⟨e, he, h1, h2, h3, h4, h5, h6, h7, h8, h9, h10, h11, by omega⟩
        | llmErr m st2 =>
          simp only [hi] at h
          cases h

/-- The early `Err` return of the retry loop (a failed `get_retry_action`,
`main.rs:281-283`) leaves the history and the pending action untouched. -/
theorem innerLoop_llmErr_spec (env : Env) (goal : String) (step : Nat) :
    ∀ (rem : Nat) (act : ActionCommand) (st : OrchSt) (m : String) (st' : OrchSt),
      innerLoop env goal step rem act st = .llmErr m st' →
      st'.history = st.history ∧ st'.pending = st.pending := by
  intro rem
  induction rem with
  | zero =>
    intro act st m st' h
    rw [innerLoop] at h
    cases hx : env.execOk (st.clock + 1) with
    | true =>
      simp only [execAuto, hx, if_true] at h
      cases h
    | false =>
      simp only [execAuto, hx, Bool.false_eq_true, if_false] at h
      cases h
  | succ r ih =>
    intro act st m st' h
    rw [innerLoop] at h
    cases hx : env.execOk (st.clock + 1) with
    | true =>
      simp only [execAuto, hx, if_true] at h
      cases h
    | false =>
      simp only [execAuto, hx, Bool.false_eq_true, if_false] at h
      cases hr : env.llmRetry (st.clock + 2) with
      | error mm =>
        simp only [hr] at h
        cases h
        exact ⟨rfl, rfl⟩
      | ok resp =>
        simp only [hr] at h
        cases hi : innerLoop env goal step r resp.action
            { st with clock := st.clock + 2 + 1 } with
        | success st2 pre2 post2 n =>
          simp only [hi] at h
          cases h
        | failure st2 n =>
          simp only [hi] at h
          cases h
        | llmErr mm st2 =>
          simp only [hi] at h
          cases h
          exact ih resp.action { st with clock := st.clock + 2 + 1 } _ _ hi

/-- A history entry with its token counters erased, for comparing histories
up to the token back-fill. -/
def entrySansTokens (e : HistoryEntry) : HistoryEntry :=
  { e with inputTokens := none, outputTokens := none }

/-- Append-only extension of a history up to the token back-fill: the length
never shrinks, every already-recorded entry is preserved up to its token
counters, and every entry except the most recent one is preserved exactly. -/
def historyExtends (old new : List HistoryEntry) : Prop :=
  old.length ≤ new.length ∧
  (new.take old.length).map entrySansTokens = old.map entrySansTokens ∧
  new.take (old.length - 1) = old.take (old.length - 1)

theorem historyExtends_refl (h : List HistoryEntry) : historyExtends h h :=
  ⟨le_refl _, by simp, rfl⟩

theorem take_append_of_le_len {α : Type} (l₁ l₂ : List α) (n : Nat)
    (h : n ≤ l₁.length) : (l₁ ++ l₂).take n = l₁.take n := by
  rw [List.take_append_eq_append_take, Nat.sub_eq_zero_of_le h, List.take_zero,
    List.append_nil]

theorem historyExtends_append (h t : List HistoryEntry) :
    historyExtends h (h ++ t) := by
  refine ⟨by simp, ?_, ?_⟩
  · rw [List.take_left]
  · rw [take_append_of_le_len h t _ (by omega)]

theorem historyExtends_trans (a b c : List HistoryEntry)
    (hab : historyExtends a b) (hbc : historyExtends b c) :
    historyExtends a c := by
  obtain ⟨l1, m1, t1⟩ := hab
  obtain ⟨l2, m2, t2⟩ := hbc
  refine ⟨le_trans l1 l2, ?_, ?_⟩
  · have hcc : c.take a.length = (c.take b.length).take a.length := by
      rw [List.take_take, Nat.min_eq_left l1]
    rw [hcc, List.map_take, m2, ← List.map_take, m1]
  · have : c.take (a.length - 1) = (c.take (b.length - 1)).take (a.length - 1) := by
      rw [List.take_take, Nat.min_eq_left (by omega)]
    rw [this, t2, List.take_take, Nat.min_eq_left (by omega), t1]

theorem backfillTokens_extends (h : List HistoryEntry) (i o : Nat) :
    historyExtends h (backfillTokens h i o) := by
  unfold backfillTokens
  cases hl : h.getLast? with
  | none => exact historyExtends_refl h
  | some last =>
    obtain ⟨ys, rfl⟩ := List.getLast?_eq_some_iff.mp hl
    have hdl : (ys ++ [last]).dropLast = ys := by simp
    rw [hdl]
    have hlen : (ys ++ [{ last with inputTokens := some i, outputTokens := some o }
        ]).length = (ys ++ [last]).length := by simp
    refine ⟨by simp, ?_, ?_⟩
    · rw [← hlen, List.take_length]
      simp [entrySansTokens]
    · have hys : (ys ++ [last]).length - 1 = ys.length := by simp
      rw [hys, List.take_left, List.take_left]

theorem nextActionStep_extends (env : Env) (st : OrchSt) :
    historyExtends st.history ((nextActionStep env st).stateOf).history := by
  unfold nextActionStep
  cases hn : env.llmNext st.clock with
  | error e => exact historyExtends_refl _
  | ok resp => exact backfillTokens_extends _ _ _

theorem afterFailureStep_extends (env : Env) (st : OrchSt) :
    historyExtends st.history ((afterFailureStep env st).stateOf).history := by
  unfold afterFailureStep
  cases ho : env.obs st.clock with
  | error e => exact historyExtends_refl _
  | ok s2 => exact nextActionStep_extends env { st with curState := s2, clock := st.clock + 1 }

theorem completeStep_extends (env : Env) (st : OrchSt) :
    historyExtends st.history ((completeStep env st).stateOf).history :=
  historyExtends_append _ _

theorem autoCompleteStep_extends (env : Env) (goal : String) (st : OrchSt) :
    historyExtends st.history ((autoCompleteStep env goal st).stateOf).history :=
  historyExtends_append _ _

theorem loopIter_extends (env : Env) (st : OrchSt) :
    historyExtends st.history ((loopIter env st).stateOf).history := by
  unfold loopIter
  by_cases hc : st.curAction.actionType = "complete"
  · rw [if_pos hc]
    exact completeStep_extends env st
  · rw [if_neg hc]
    cases hi : innerLoop env st.goal (st.history.length + 1) 4 st.curAction st with
    | llmErr m st' =>
      obtain ⟨hh, _⟩ := innerLoop_llmErr_spec env st.goal (st.history.length + 1)
        4 st.curAction st m st' hi
      dsimp only
      simp only [IterOut.stateOf, hh]
      exact historyExtends_refl _
    | success st' pre post att =>
      obtain ⟨e, he, _⟩ := innerLoop_success_spec env st.goal (st.history.length + 1)
        4 st.curAction st st' pre post att hi
      have hext : historyExtends st.history st'.history := he ▸ historyExtends_append _ _
      dsimp only
      by_cases ht : 3 ≤ st'.consecutive
      · rw [if_pos ht]
        exact historyExtends_trans _ _ _ hext (autoCompleteStep_extends env st.goal st')
      · rw [if_neg ht]
        exact historyExtends_trans _ _ _ hext (nextActionStep_extends env st')
    | failure st' att =>
      obtain ⟨e, he, _⟩ := innerLoop_failure_spec env st.goal (st.history.length + 1)
        4 st.curAction st st' att hi
      have hext : historyExtends st.history st'.history := he ▸ historyExtends_append _ _
      dsimp only
      exact historyExtends_trans _ _ _ hext (afterFailureStep_extends env st')

theorem runLoop_extends (env : Env) :
    ∀ (fuel : Nat) (st : OrchSt),
      historyExtends st.history ((runLoop env fuel st).2).history := by
  intro fuel
  induction fuel with
  | zero =>
    intro st
    exact historyExtends_refl _
  | succ f ih =>
    intro st
    rw [runLoop]
    cases hlt : loopIter env st with
    | ret res st' =>
      have := loopIter_extends env st
      rw [hlt] at this
      exact this
    | cont st' =>
      have h1 := loopIter_extends env st
      rw [hlt] at h1
      exact historyExtends_trans _ _ _ h1 (ih st')

theorem approveAction_extends (env : Env) (approved : Bool) (app : AppStateM)
    (clock : Nat) :
    historyExtends app.history ((approveAction env approved app clock).2).history := by
  unfold approveAction
  cases approved with
  | false => exact historyExtends_refl _
  | true =>
    cases app.pending with
    | none => exact historyExtends_refl _
    | some action =>
      cases app.currentGoal with
      | none => exact historyExtends_refl _
      | some goal =>
        cases app.apiKey with
        | none => exact historyExtends_refl _
        | some k =>
          cases ho : env.obs (clock + 1) with
          | error e => exact historyExtends_refl _
          | ok st0 =>
            exact runLoop_extends env 20
              { history := app.history
                pending := some action
                goal := goal
                curAction := action
                curModeStr := modeStr (env.detect clock)
                initialModeStr := modeStr (env.detect clock)
                consecutive := 0
                curState := st0
                clock := clock + 2 }

/-- C5: within a goal the history only grows and no recorded entry mutates
except the token back-fill onto the most recent entry: every outer-loop
iteration, and the whole of `approve_action`, takes the history to an
extension in which the length is non-decreasing, all previously recorded
entries are preserved up to token counters, and all but the most recent
previously recorded entry are preserved exactly. -/
theorem C5_history_append_only :
    (∀ (env : Env) (st : OrchSt),
        historyExtends st.history ((loopIter env st).stateOf).history) ∧
      ∀ (env : Env) (approved : Bool) (app : AppStateM) (clock : Nat),
        historyExtends app.history ((approveAction env approved app clock).2).history :=
  ⟨loopIter_extends, approveAction_extends⟩

/-- Full description of the synthesized-completion block: it appends exactly
one entry with step number `|history| + 1` and no `user_input`, whose
success flag, action type and error mirror the goal-keyword check on the
re-observed state, clears the pending action, and returns that state. -/
theorem autoCompleteStep_spec (env : Env) (goal : String) (st : OrchSt) :
    ∃ (fresh : ExecutionState) (entry : HistoryEntry),
      autoCompleteStep env goal st = .ret (.ok fresh)
        { st with
            history := st.history ++ [entry]
            pending := none
            clock := st.clock + 2 } ∧
      fresh = (match env.obs st.clock with | .ok s => s | .error _ => st.curState) ∧
      entry.stepNumber = st.history.length + 1 ∧
      entry.userInput = none ∧
      entry.success = checkGoalInA11y goal fresh ∧
      entry.action.actionType =
        (if checkGoalInA11y goal fresh then "smart_complete" else "auto_complete") ∧
      entry.error =
        (if checkGoalInA11y goal fresh then none else some incompleteMsg) ∧
      entry.mode = st.curModeStr :=
  ⟨_, _, rfl, rfl, rfl, rfl, rfl, rfl, rfl, rfl⟩

/-- Full description of the `complete`-action path: one success entry whose
`user_input` always carries the goal, pending cleared, current state
returned. -/
theorem completeStep_spec (env : Env) (st : OrchSt) :
    ∃ entry : HistoryEntry,
      completeStep env st = .ret (.ok st.curState)
        { st with
            history := st.history ++ [entry]
            pending := none
            clock := st.clock + 1 } ∧
      entry.stepNumber = st.history.length + 1 ∧
      entry.userInput = some st.goal ∧
      entry.success = true ∧
      entry.action = st.curAction :=
  ⟨_, rfl, rfl, rfl, rfl, rfl⟩

/-- The routing of one outer-loop iteration after a successful step: the
synthesized-completion block runs exactly when the consecutive-success
counter has reached the threshold 3. -/
theorem loopIter_success_route (env : Env) (st : OrchSt)
    (hc : ¬st.curAction.actionType = "complete")
    (st' : OrchSt) (pre post : AutomationMode) (att : Nat)
    (hi : innerLoop env st.goal (st.history.length + 1) 4 st.curAction st
      = .success st' pre post att) :
    (3 ≤ st'.consecutive → loopIter env st = autoCompleteStep env st.goal st') ∧
    (¬3 ≤ st'.consecutive → loopIter env st = nextActionStep env st') := by
  unfold loopIter
  rw [if_neg hc, hi]
  dsimp only
  constructor
  · intro ht
    rw [if_pos ht]
  · intro ht
    rw [if_neg ht]

/-- The routing of one outer-loop iteration after an exhausted step: the
loop re-observes and asks for the next action; no completion is synthesized. -/
theorem loopIter_failure_route (env : Env) (st : OrchSt)
    (hc : ¬st.curAction.actionType = "complete")
    (st' : OrchSt) (att : Nat)
    (hi : innerLoop env st.goal (st.history.length + 1) 4 st.curAction st
      = .failure st' att) :
    loopIter env st = afterFailureStep env st' := by
  unfold loopIter
  rw [if_neg hc, hi]

/-- The routing of one outer-loop iteration on the `complete` action. -/
theorem loopIter_complete_route (env : Env) (st : OrchSt)
    (hc : st.curAction.actionType = "complete") :
    loopIter env st = completeStep env st := by
  unfold loopIter
  rw [if_pos hc]

/-! Concrete inputs used by witnesses and counterexamples. -/

/-- A plain observed desktop state. -/
def witObsState : ExecutionState :=
  { screenshotBase64 := "", accessibilityTree := Json.null, activeWindow := "win",
    url := none, success := true, error := none }

/-- A plain click action. -/
def witClickAct : ActionCommand :=
  { actionType := "click", target := Json.str "name:x", params := none,
    reasoning := some "r" }

/-- An environment whose detector says desktop only at instant 0 (so a step
executed at the start sees desktop before execution and browser after), with
every execution succeeding. -/
def witEnvMode : Env :=
  { detect := fun t => if t = 0 then .desktop else .browser
    execOk := fun _ => true
    execErr := fun _ => "e"
    obs := fun _ => .ok witObsState
    llmNext := fun _ => .ok ⟨witClickAct, 1, 2⟩
    llmRetry := fun _ => .ok ⟨witClickAct, 1, 2⟩
    now := fun _ => "ts" }

/-- A loop state at the start of a goal (desktop mode, empty history). -/
def witStBase : OrchSt :=
  { history := [], pending := some witClickAct, goal := "g",
    curAction := witClickAct, curModeStr := "desktop",
    initialModeStr := "desktop", consecutive := 0, curState := witObsState,
    clock := 0 }

/-- The entry recorded by a first successful step under `witEnvMode`. -/
def witSuccEntry : HistoryEntry :=
  { timestamp := "ts", stepNumber := 1, userInput := some "g",
    llmReasoning := "r [MODE: desktop -> browser]", action := witClickAct,
    success := true, error := none, mode := "browser", windowContext := "win",
    inputTokens := none, outputTokens := none }

/-- The loop state after a first successful step under `witEnvMode` from
`witStBase` with two prior consecutive successes. -/
def witStSucc3 : OrchSt :=
  { history := [witSuccEntry], pending := some witClickAct, goal := "g",
    curAction := witClickAct, curModeStr := "browser",
    initialModeStr := "desktop", consecutive := 3, curState := witObsState,
    clock := 5 }

/-- C1: the orchestrator synthesizes a completion exactly when the executed
step succeeds and the consecutive-success count (which the success just
incremented) reaches the threshold 3; the synthesized block re-observes
(falling back to the current state if observation fails), records a
`smart_complete` success entry iff the goal-keyword check passes on that
observation and otherwise an `auto_complete` failure entry whose error text
is the `[INCOMPLETE]` message, clears the pending action, and returns the
observed state; a failed step never synthesizes a completion. -/
theorem C1_smart_auto_complete (env : Env) (st : OrchSt)
    (hc : st.curAction.actionType ≠ "complete") :
    (∀ (st' : OrchSt) (pre post : AutomationMode) (att : Nat),
        innerLoop env st.goal (st.history.length + 1) 4 st.curAction st
          = .success st' pre post att →
        st'.consecutive = st.consecutive + 1 ∧
        (3 ≤ st'.consecutive → loopIter env st = autoCompleteStep env st.goal st') ∧
        (st'.consecutive < 3 → loopIter env st = nextActionStep env st')) ∧
    (∀ (st' : OrchSt) (att : Nat),
        innerLoop env st.goal (st.history.length + 1) 4 st.curAction st
          = .failure st' att →
        loopIter env st = afterFailureStep env st') ∧
    (∀ (goal : String) (s : OrchSt), ∃ fresh entry,
        autoCompleteStep env goal s = .ret (.ok fresh)
          { s with
              history := s.history ++ [entry]
              pending := none
              clock := s.clock + 2 } ∧
        fresh = (match env.obs s.clock with | .ok x => x | .error _ => s.curState) ∧
        entry.userInput = none ∧
        entry.success = checkGoalInA11y goal fresh ∧
        entry.action.actionType =
          (if checkGoalInA11y goal fresh then "smart_complete" else "auto_complete") ∧
        entry.error =
          (if checkGoalInA11y goal fresh then none else some incompleteMsg) ∧
        ∃ rest, incompleteMsg = "[INCOMPLETE]" ++ rest) := by
  refine ⟨?_, ?_, ?_⟩
  · intro st' pre post att hi
    obtain ⟨e, _, _, _, _, _, _, _, _, hcons, _⟩ :=
      innerLoop_success_spec env st.goal (st.history.length + 1) 4 st.curAction
        st st' pre post att hi
    obtain ⟨hthen, helse⟩ := loopIter_success_route env st hc st' pre post att hi
    exact ⟨hcons, hthen, fun hlt => helse (Nat.not_le.mpr hlt)⟩
  · intro st' att hi
    exact loopIter_failure_route env st hc st' att hi
  · intro goal s
    obtain ⟨fresh, entry, h1, h2, _, h4, h5, h6, h7, _⟩ :=
      autoCompleteStep_spec env goal s
    exact ⟨fresh, entry, h1, h2, h4, h5, h6, h7,
      ⟨" LLM did not signal completion, goal keywords not found in a11y", rfl⟩⟩

/-- C1 (witness): under `witEnvMode`, a step that succeeds with two prior
consecutive successes routes the iteration into the synthesized-completion
block. -/
theorem C1_smart_auto_complete_witness :
    loopIter witEnvMode { witStBase with consecutive := 2 } =
      autoCompleteStep witEnvMode "g" witStSucc3 := by
  have h :=
    ((C1_smart_auto_complete witEnvMode { witStBase with consecutive := 2 }
        (by decide)).1 witStSucc3 .desktop .browser 1 rfl).2.1 (by decide)
  exact h

/-- The ghost pre-execution detector value of a retry-loop outcome. -/
def InnerOut.preModeOf : InnerOut → Option AutomationMode
  | .success _ pre _ _ => some pre
  | _ => none

/-- The `mode` field of the last recorded entry of a retry-loop outcome. -/
def InnerOut.lastModeOf : InnerOut → Option String
  | .success st _ _ _ => (st.history.getLast?).map (fun e => e.mode)
  | .failure st _ => (st.history.getLast?).map (fun e => e.mode)
  | .llmErr _ st => (st.history.getLast?).map (fun e => e.mode)

/-- The attempt count of a retry-loop outcome (0 for the early LLM error). -/
def InnerOut.attemptsOf : InnerOut → Nat
  | .success _ _ _ n => n
  | .failure _ n => n
  | .llmErr _ _ => 0

/-- The loop state after a first successful step under `witEnvMode` from
`witStBase`. -/
def witStSucc1 : OrchSt :=
  { history := [witSuccEntry], pending := some witClickAct, goal := "g",
    curAction := witClickAct, curModeStr := "browser",
    initialModeStr := "desktop", consecutive := 1, curState := witObsState,
    clock := 5 }

/-- C7 (counterexample): the claim fails as stated. Under `witEnvMode` the
detector read immediately before the step's execution says desktop, yet the
recorded entry's `mode` is `"browser"` — the code stores the detector value
re-read after the execution, not the one taken before it. -/
theorem C7_mode_counterexample :
    (innerLoop witEnvMode "g" 1 4 witClickAct witStBase).preModeOf
        = some AutomationMode.desktop ∧
      (innerLoop witEnvMode "g" 1 4 witClickAct witStBase).lastModeOf
        = some "browser" ∧
      modeStr AutomationMode.desktop ≠ "browser" :=
  ⟨rfl, rfl, by decide⟩

/-- C9 (amended): a success or failure entry of the retry loop carries the
goal as `user_input` exactly when its step number is 1; the entry recorded
for a model-emitted `complete` action always carries the goal, whatever its
step number; a synthesized completion entry never does. -/
theorem C9_user_input_rule (env : Env) (goal : String) (step : Nat)
    (rem : Nat) (act : ActionCommand) (st : OrchSt) :
    (∀ (st' : OrchSt) (pre post : AutomationMode) (att : Nat),
        innerLoop env goal step rem act st = .success st' pre post att →
        ∃ e, st'.history = st.history ++ [e] ∧ e.stepNumber = step ∧
          e.userInput = (if step = 1 then some goal else none)) ∧
    (∀ (st' : OrchSt) (att : Nat),
        innerLoop env goal step rem act st = .failure st' att →
        ∃ e, st'.history = st.history ++ [e] ∧ e.stepNumber = step ∧
          e.userInput = (if step = 1 then some goal else none)) ∧
    (∀ s : OrchSt, ∃ e,
        completeStep env s = .ret (.ok s.curState)
          { s with
              history := s.history ++ [e]
              pending := none
              clock := s.clock + 1 } ∧
        e.stepNumber = s.history.length + 1 ∧ e.userInput = some s.goal) ∧
    (∀ (g : String) (s : OrchSt), ∃ fresh e,
        autoCompleteStep env g s = .ret (.ok fresh)
          { s with
              history := s.history ++ [e]
              pending := none
              clock := s.clock + 2 } ∧
        e.stepNumber = s.history.length + 1 ∧ e.userInput = none) := by
  refine ⟨?_, ?_, ?_, ?_⟩
  · intro st' pre post att hi
    obtain ⟨e, he, h1, h2, _⟩ :=
      innerLoop_success_spec env goal step rem act st st' pre post att hi
    exact ⟨e, he, h1, h2⟩
  · intro st' att hi
    obtain ⟨e, he, h1, h2, _⟩ :=
      innerLoop_failure_spec env goal step rem act st st' att hi
    exact ⟨e, he, h1, h2⟩
  · intro s
    obtain ⟨e, h1, h2, h3, _⟩ := completeStep_spec env s
    exact ⟨e, h1, h2, h3⟩
  · intro g s
    obtain ⟨fresh, e, h1, _, h3, h4, _⟩ := autoCompleteStep_spec env g s
    exact ⟨fresh, e, h1, h3, h4⟩

/-- A model-emitted terminal `complete` action. -/
def witCompleteAct : ActionCommand :=
  { actionType := "complete", target := Json.str "", params := none,
    reasoning := some "done" }

/-- An environment in which every execution succeeds and the model always
answers with `complete`. -/
def witEnvComplete : Env :=
  { detect := fun _ => .desktop
    execOk := fun _ => true
    execErr := fun _ => "e"
    obs := fun _ => .ok witObsState
    llmNext := fun _ => .ok ⟨witCompleteAct, 1, 2⟩
    llmRetry := fun _ => .ok ⟨witClickAct, 1, 2⟩
    now := fun _ => "ts" }

/-- The app state at the start of a goal with one pending click. -/
def witAppM : AppStateM :=
  { apiKey := some "k", history := [], pending := some witClickAct,
    currentGoal := some "zzzz" }

/-- C9 (counterexample): the claim fails as stated. Running a goal in which
the first step succeeds and the model then answers `complete` records a
terminal `complete` entry with step number 2 whose `user_input` carries the
goal — the code attaches the goal to the `complete` entry unconditionally
(`main.rs:182`). -/
theorem C9_user_input_counterexample :
    ((approveAction witEnvComplete true witAppM 0).2.history.getLast?).map
        (fun e => (e.stepNumber, e.userInput, e.action.actionType))
      = some (2, some "zzzz", "complete") := rfl

/-- C9 (witness): the amended rule applied at a concrete first step and a
concrete `complete` state. -/
theorem C9_user_input_rule_witness :
    (∃ e, witStSucc1.history = witStBase.history ++ [e] ∧ e.stepNumber = 1 ∧
      e.userInput = (if 1 = 1 then some "g" else none)) ∧
    ∃ e, completeStep witEnvMode witStBase = .ret (.ok witStBase.curState)
        { witStBase with
            history := witStBase.history ++ [e]
            pending := none
            clock := witStBase.clock + 1 } ∧
      e.stepNumber = witStBase.history.length + 1 ∧
      e.userInput = some witStBase.goal :=
  ⟨(C9_user_input_rule witEnvMode "g" 1 4 witClickAct witStBase).1 witStSucc1
      .desktop .browser 1 rfl,
    (C9_user_input_rule witEnvMode "g" 1 4 witClickAct witStBase).2.2.1 witStBase⟩

/-- C7 (amended): a success entry's `mode` equals the detector value re-read
immediately after that step's execution; a failure entry's `mode` equals the
mode string held from before the step (the initial detection or the one
re-read after the most recent successful step). -/
theorem C7_mode_after_execution (env : Env) (goal : String) (step : Nat)
    (rem : Nat) (act : ActionCommand) (st : OrchSt) :
    (∀ (st' : OrchSt) (pre post : AutomationMode) (att : Nat),
        innerLoop env goal step rem act st = .success st' pre post att →
        ∃ e, st'.history = st.history ++ [e] ∧ e.mode = modeStr post) ∧
    ∀ (st' : OrchSt) (att : Nat),
        innerLoop env goal step rem act st = .failure st' att →
        ∃ e, st'.history = st.history ++ [e] ∧ e.mode = st.curModeStr := by
  constructor
  · intro st' pre post att hi
    obtain ⟨e, he, _, _, _, _, h6, _⟩ :=
      innerLoop_success_spec env goal step rem act st st' pre post att hi
    exact ⟨e, he, h6⟩
  · intro st' att hi
    obtain ⟨e, he, _, _, _, _, h6, _⟩ :=
      innerLoop_failure_spec env goal step rem act st st' att hi
    exact ⟨e, he, h6⟩

/-- C7 (witness): the amended rule applied at a concrete successful step
that transitions from desktop to browser. -/
theorem C7_mode_after_execution_witness :
    ∃ e, witStSucc1.history = witStBase.history ++ [e] ∧
      e.mode = modeStr AutomationMode.browser :=
  (C7_mode_after_execution witEnvMode "g" 1 4 witClickAct witStBase).1
    witStSucc1 .desktop .browser 1 rfl

theorem backfillTokens_length (h : List HistoryEntry) (i o : Nat) :
    (backfillTokens h i o).length = h.length := by
  unfold backfillTokens
  cases hl : h.getLast? with
  | none => rfl
  | some last =>
    obtain ⟨ys, rfl⟩ := List.getLast?_eq_some_iff.mp hl
    simp

theorem nextActionStep_len (env : Env) (st : OrchSt) :
    ((nextActionStep env st).stateOf).history.length = st.history.length := by
  unfold nextActionStep
  cases hn : env.llmNext st.clock with
  | error e => rfl
  | ok resp => exact backfillTokens_length _ _ _

theorem afterFailureStep_len (env : Env) (st : OrchSt) :
    ((afterFailureStep env st).stateOf).history.length = st.history.length := by
  unfold afterFailureStep
  cases ho : env.obs st.clock with
  | error e => rfl
  | ok s2 => exact nextActionStep_len env _

theorem nextActionStep_cont_len (env : Env) (st st' : OrchSt)
    (h : nextActionStep env st = .cont st') :
    st'.history.length = st.history.length := by
  have := nextActionStep_len env st
  rw [h] at this
  exact this

theorem afterFailureStep_cont_len (env : Env) (st st' : OrchSt)
    (h : afterFailureStep env st = .cont st') :
    st'.history.length = st.history.length := by
  have := afterFailureStep_len env st
  rw [h] at this
  exact this

/-- Length bounds for one outer-loop iteration: at most two entries are
recorded on an early return (the step entry plus possibly one synthesized
completion entry) and at most one when the loop continues. -/
theorem loopIter_len (env : Env) (st : OrchSt) :
    ((loopIter env st).stateOf).history.length ≤ st.history.length + 2 ∧
      ∀ st', loopIter env st = .cont st' →
        st'.history.length ≤ st.history.length + 1 := by
  unfold loopIter
  by_cases hc : st.curAction.actionType = "complete"
  · rw [if_pos hc]
    constructor
    · unfold completeStep
      simp [IterOut.stateOf]
    · intro st' h
      unfold completeStep at h
      cases h
  · rw [if_neg hc]
    cases hi : innerLoop env st.goal (st.history.length + 1) 4 st.curAction st with
    | llmErr m st' =>
      obtain ⟨hh, _⟩ := innerLoop_llmErr_spec env st.goal (st.history.length + 1)
        4 st.curAction st m st' hi
      dsimp only
      constructor
      · simp [IterOut.stateOf, hh]
      · intro st'' h
        cases h
    | success st' pre post att =>
      obtain ⟨e, he, _⟩ := innerLoop_success_spec env st.goal (st.history.length + 1)
        4 st.curAction st st' pre post att hi
      have hlen : st'.history.length = st.history.length + 1 := by simp [he]
      dsimp only
      by_cases ht : 3 ≤ st'.consecutive
      · rw [if_pos ht]
        constructor
        · unfold autoCompleteStep
          simp [IterOut.stateOf, hlen]
        · intro st'' h
          unfold autoCompleteStep at h
          cases h
      · rw [if_neg ht]
        constructor
        · rw [nextActionStep_len env st', hlen]
          omega
        · intro st'' h
          rw [nextActionStep_cont_len env st' st'' h, hlen]
    | failure st' att =>
      obtain ⟨e, he, _⟩ := innerLoop_failure_spec env st.goal (st.history.length + 1)
        4 st.curAction st st' att hi
      have hlen : st'.history.length = st.history.length + 1 := by simp [he]
      dsimp only
      constructor
      · rw [afterFailureStep_len env st', hlen]
        omega
      · intro st'' h
        rw [afterFailureStep_cont_len env st' st'' h, hlen]

/-- Length bound across the outer loop: at most `fuel + 1` entries are
recorded (one per iteration plus possibly one synthesized completion). -/
theorem runLoop_len (env : Env) :
    ∀ (fuel : Nat) (st : OrchSt),
      ((runLoop env fuel st).2).history.length ≤ st.history.length + fuel + 1 := by
  intro fuel
  induction fuel with
  | zero =>
    intro st
    simp [runLoop]
  | succ f ih =>
    intro st
    rw [runLoop]
    cases hlt : loopIter env st with
    | ret res st' =>
      have h := (loopIter_len env st).1
      rw [hlt] at h
      simp only [IterOut.stateOf] at h
      dsimp only
      omega
    | cont st' =>
      have h := (loopIter_len env st).2 st' hlt
      have h2 := ih st'
      dsimp only
      omega

/-- An environment that makes every execution attempt fail (for attempt
counting). -/
def witEnvFail : Env :=
  { detect := fun _ => .desktop
    execOk := fun _ => false
    execErr := fun _ => "boom"
    obs := fun _ => .ok witObsState
    llmNext := fun _ => .ok ⟨witClickAct, 1, 2⟩
    llmRetry := fun _ => .ok ⟨witClickAct, 1, 2⟩
    now := fun _ => "ts" }

/-- An environment in which execution fails until instant 292 and succeeds
from then on: the run spends 17 iterations failing, then three consecutive
successes trigger the synthesized completion at the very last iteration. -/
def witEnvBudget : Env :=
  { detect := fun _ => .desktop
    execOk := fun t => 292 ≤ t
    execErr := fun _ => "boom"
    obs := fun _ => .ok witObsState
    llmNext := fun _ => .ok ⟨witClickAct, 1, 2⟩
    llmRetry := fun _ => .ok ⟨witClickAct, 1, 2⟩
    now := fun _ => "ts" }

/-- C3 (counterexample): the claim fails as stated. A goal whose steps fail
for 17 iterations and then succeed three times in a row records 21 distinct
step numbers: 20 step entries plus the synthesized completion entry pushed
in the same final iteration with step number 21. -/
theorem C3_budget_counterexample :
    (((approveAction witEnvBudget true witAppM 0).2.history.map
        (fun e => e.stepNumber)).dedup).length = 21 := by
  rfl

/-- C3 (amended): a run of a goal from an empty history records at most 21
distinct step numbers (at most one entry per loop iteration over the budget
of 20, plus possibly the one synthesized completion entry), and the retry
loop of any single step makes at most 5 execution attempts. -/
theorem C3_budget_bounds :
    (∀ (env : Env) (app : AppStateM) (clock : Nat), app.history = [] →
        (((approveAction env true app clock).2.history.map
          (fun e => e.stepNumber)).dedup).length ≤ 21) ∧
      ∀ (env : Env) (goal : String) (step : Nat) (act : ActionCommand)
        (st : OrchSt),
        (innerLoop env goal step 4 act st).attemptsOf ≤ 5 := by
  constructor
  · intro env app clock happ
    have hlen : ((approveAction env true app clock).2).history.length ≤ 21 := by
      unfold approveAction
      cases hp : app.pending with
      | none => simp [happ]
      | some action =>
        cases hg : app.currentGoal with
        | none => simp [happ]
        | some goal =>
          cases hk : app.apiKey with
          | none => simp [happ]
          | some k =>
            cases ho : env.obs (clock + 1) with
            | error e => simp [happ]
            | ok st0 =>
              have h := runLoop_len env 20
                { history := app.history
                  pending := some action
                  goal := goal
                  curAction := action
                  curModeStr := modeStr (env.detect clock)
                  initialModeStr := modeStr (env.detect clock)
                  consecutive := 0
                  curState := st0
                  clock := clock + 2 }
              simp only [happ, List.length_nil] at h
              simpa [happ] using h
    calc (((approveAction env true app clock).2.history.map
            (fun e => e.stepNumber)).dedup).length
        ≤ ((approveAction env true app clock).2.history.map
            (fun e => e.stepNumber)).length :=
          (List.dedup_sublist _).length_le
      _ = ((approveAction env true app clock).2).history.length :=
          List.length_map _ _
      _ ≤ 21 := hlen
  · intro env goal step act st
    cases hi : innerLoop env goal step 4 act st with
    | success st' pre post att =>
      obtain ⟨e, _, _, _, _, _, _, _, _, _, _, _, _, hatt⟩ :=
        innerLoop_success_spec env goal step 4 act st st' pre post att hi
      simpa [InnerOut.attemptsOf] using hatt
    | failure st' att =>
      obtain ⟨e, _, _, _, _, _, _, _, _, _, _, _, _, hatt⟩ :=
        innerLoop_failure_spec env goal step 4 act st st' att hi
      simpa [InnerOut.attemptsOf] using hatt
    | llmErr m st' => simp [InnerOut.attemptsOf]

/-- C3 (witness): the amended bounds applied at the concrete budget run and
at a concrete always-failing step. -/
theorem C3_budget_bounds_witness :
    (((approveAction witEnvBudget true witAppM 0).2.history.map
        (fun e => e.stepNumber)).dedup).length ≤ 21 ∧
      (innerLoop witEnvFail "g" 1 4 witClickAct witStBase).attemptsOf ≤ 5 :=
  ⟨C3_budget_bounds.1 witEnvBudget witAppM 0 rfl,
    C3_budget_bounds.2 witEnvFail "g" 1 witClickAct witStBase⟩

/-- C6 (counterexample): the claim fails as stated: rejecting the pending
action returns the error result `"Rejected"` — an `Err`, not a success. -/
theorem C6_reject_counterexample :
    (approveAction witEnvMode false witAppM 0).1 = Except.error "Rejected" := rfl

/-- C6 (amended): rejecting a pending action clears it, leaves the history
(and the rest of the app state) unchanged, executes nothing, and returns the
error result `"Rejected"` to the caller. -/
theorem C6_reject_clears_pending (env : Env) (app : AppStateM) (clock : Nat) :
    approveAction env false app clock
      = (.error "Rejected", { app with pending := none }) := rfl

/-! String truncation helpers (`claude.rs:365-376` and `logging.rs:320-326`),
modelled at the UTF-8 byte level: a Rust string is its byte encoding,
`s.len()` is the byte length, and slicing is byte-indexed. A Rust panic from
slicing off a character boundary is modelled as `none`. -/

/-- UTF-8 encoding of one character (1–4 bytes by code-point range). -/
def utf8EncodeChar (c : Char) : List Nat :=
  let n := c.toNat
  if n < 0x80 then [n]
  else if n < 0x800 then [0xc0 + n / 64, 0x80 + n % 64]
  else if n < 0x10000 then [0xe0 + n / 4096, 0x80 + n / 64 % 64, 0x80 + n % 64]
  else [0xf0 + n / 262144, 0x80 + n / 4096 % 64, 0x80 + n / 64 % 64, 0x80 + n % 64]

/-- UTF-8 encoding of a character list (the bytes of a Rust `String`). -/
def utf8Encode (cs : List Char) : List Nat := (cs.map utf8EncodeChar).flatten

/-- Model of `str::is_char_boundary`: true at 0 and at the end, false on a
continuation byte (`0x80..0xbf`), false past the end. -/
def isCharBoundary (bs : List Nat) (i : Nat) : Bool :=
  if i = 0 then true
  else
    match bs[i]? with
    | none => i = bs.length
    | some b => b < 0x80 || 0xc0 ≤ b

/-- The boundary back-off loop of `truncate_str` (`claude.rs:370-373`):
`while end > 0 && !s.is_char_boundary(end) { end -= 1 }`. -/
def truncateBackOff (bs : List Nat) : Nat → Nat
  | 0 => 0
  | e + 1 => if isCharBoundary bs (e + 1) then e + 1 else truncateBackOff bs e

/-- Model of `truncate_str` (`claude.rs:365-376`): keep short strings; else
back off from the limit to the nearest character boundary, slice there and
append `"..."`. -/
def truncateStrBytes (bs : List Nat) (maxLen : Nat) : List Nat :=
  if bs.length ≤ maxLen then bs
  else bs.take (truncateBackOff bs maxLen) ++ utf8Encode "...".toList

/-- Model of `truncate` (`logging.rs:320-326`): keep short strings; else
slice the bytes at the limit directly (`&s[..max]`) and append `"..."`. The
Rust slice panics when `max` is not a character boundary; the panic is
modelled as `none`. -/
def truncateLogging (bs : List Nat) (maxLen : Nat) : Option (List Nat) :=
  if bs.length ≤ maxLen then some bs
  else if isCharBoundary bs maxLen then
    some (bs.take maxLen ++ utf8Encode "...".toList)
  else none

/-- The grinning-face emoji (U+1F600), a four-byte character. -/
def emojiChar : Char := Char.ofNat 0x1f600

/-- Five four-byte emoji: the claim's example input (20 bytes). -/
def emojiFive : List Char := List.replicate 5 emojiChar

/-- C8: on the claim's own example — five four-byte emoji truncated to limit
3 — `logging::truncate` slices at byte 3, which falls inside the first
code point, and panics (modelled as `none`), while `truncate_str` in
`claude.rs` backs off to boundary 0 and returns `"..."` as the claim
describes. The inline `&target_display[..40]` slice in `format_history`
(`claude.rs:320-324`) has the same panic as `logging::truncate`. -/
theorem C8_truncate_panics_on_emoji :
    truncateLogging (utf8Encode emojiFive) 3 = none ∧
      truncateStrBytes (utf8Encode emojiFive) 3 = utf8Encode "...".toList ∧
      (utf8Encode emojiFive).length = 20 := by
  refine ⟨?_, ?_, ?_⟩ <;> decide

end TauriAgent

